import Mathlib

/-!
# go-mud: a shallow embedding of `server.go`

The server keeps two global slices, `rooms []*Room` and `players []*Player`, and runs one
sequential read-dispatch loop per connection.  The embedding below makes that state explicit:

* `State.rooms` is the room table.  Rooms are allocated only by `buildTheWorld` and are never
  mutated, so a `*Room` is modelled by its position in the table (`none` is `nil`).
* `State.heap` maps the address of every `Player` object to its current contents and
  `State.players` is the registry, a list of such addresses (`[]*Player`).
* `State.out` is the trace of connection operations.  A `Player` owns the one connection that
  `Accept` returned for it, so a write on `player.Conn` is recorded against the address of
  that `Player` object.
* A Go run-time panic (nil dereference, index out of range) is an explicit outcome, `Run.panic`,
  which carries the state reached when the panic happened.
-/

namespace GoMud

/-! ## Data model -/

/-- Go `type Exits struct`: the target room identifier per direction, `0` meaning no exit. -/
structure Exits where
  North : Int := 0
  East : Int := 0
  South : Int := 0
  West : Int := 0
deriving DecidableEq, Repr

/-- Go `type Room struct`; the map `ExtraDescriptions` is kept as an association list. -/
structure Room where
  Id : Int
  Name : String
  Description : String
  ExtraDescriptions : List (String × String)
  Exits : Exits
deriving DecidableEq, Repr

/-- Go `type Player struct`; `Room` is the embedded `*Room` (`none` is `nil`).  The `Conn`
field is represented by the address of the `Player` object itself in the trace. -/
structure Player where
  Id : Int
  Name : String
  Room : Option Nat
deriving DecidableEq, Repr

/-- One operation on a connection: `Conn.Write(data)` or `Conn.Close()` on the connection owned
by the `Player` object at the given address. -/
inductive Event where
  | write (recipient : Nat) (data : String)
  | close (owner : Nat)
deriving DecidableEq, Repr

/-- Global state of the server process. -/
structure State where
  rooms : List Room
  heap : Nat → Player
  next : Nat
  players : List Nat
  out : List Event

/-- Outcome of running a piece of the program: normal completion or a run-time panic. -/
inductive Run where
  | done (s : State)
  | panic (s : State)

/-- State in which a run ended (for a panic: the state at the moment of the panic). -/
def Run.state : Run → State
  | Run.done s => s
  | Run.panic s => s

/-- Whether the run ended in a panic. -/
def Run.panicked : Run → Bool
  | Run.done _ => false
  | Run.panic _ => true

/-- Sequential composition: a panic stops the program. -/
def Run.andThen (r : Run) (f : State → Run) : Run :=
  match r with
  | Run.done s => f s
  | Run.panic s => Run.panic s

/-- Dereference of a `*Room`; `none` stands for the nil-pointer panic. -/
def State.roomAt (s : State) (ptr : Option Nat) : Option Room :=
  match ptr with
  | none => none
  | some i => s.rooms[i]?

/-- Assignment `player.Room = r` through the pointer `p`. -/
def State.setRoom (s : State) (p : Nat) (r : Option Nat) : State :=
  { s with heap := fun a => if a = p then { s.heap a with Room := r } else s.heap a }

/-- Assignment `player.Name = name` through the pointer `p`. -/
def State.setName (s : State) (p : Nat) (name : String) : State :=
  { s with heap := fun a => if a = p then { s.heap a with Name := name } else s.heap a }

/-! ## Strings -/

/-- Go `len(s)` on a string: the number of bytes. -/
def len (s : String) : Nat := s.utf8ByteSize

/-- Go `unicode.IsSpace`. -/
def isSpace (c : Char) : Bool :=
  let n := c.toNat
  (0x09 ≤ n && n ≤ 0x0D) || n == 0x20 || n == 0x85 || n == 0xA0 || n == 0x1680 ||
  (0x2000 ≤ n && n ≤ 0x200A) || n == 0x2028 || n == 0x2029 || n == 0x202F || n == 0x205F ||
  n == 0x3000

/-- Scanner of `strings.Fields`: `cur` is the token being read. -/
def fieldsGo : List Char → List Char → List String
  | cur, [] => if cur.isEmpty then [] else [String.mk cur]
  | cur, c :: cs =>
    if isSpace c then
      if cur.isEmpty then fieldsGo [] cs else String.mk cur :: fieldsGo [] cs
    else fieldsGo (cur ++ [c]) cs

/-- Go `strings.Fields`: the maximal runs of non-space characters. -/
def Fields (s : String) : List String := fieldsGo [] s.data

/-- Go `strings.TrimPrefix`. -/
def TrimPrefix (s pre : String) : String :=
  if pre.data.isPrefixOf s.data then String.mk (s.data.drop pre.data.length) else s

/-- Go map lookup `m[key]`, the zero value `""` when the key is absent. -/
def mapGet (m : List (String × String)) (key : String) : String :=
  match m.find? (fun kv => kv.1 = key) with
  | some kv => kv.2
  | none => ""

/-! ## The program -/

/-- Rooms appended by `buildTheWorld`. -/
def worldRooms : List Room :=
  [ { Id := 1
      Name := "An empty room"
      Description := "You are standing in a nice big empty room. There is nothing on the walls, nothing on the floor, and nothing on the ceiling. There is an open door to the west."
      ExtraDescriptions :=
        [("walls", "There is nothing on the walls."),
         ("floor", "There is nothing on the floor."),
         ("ceiling", "There is nothing on the ceiling."),
         ("door", "You see a small dark room on the other side of the door.")]
      Exits := { West := 2 } },
    { Id := 2
      Name := "A dark room"
      Description := "You are standing in a small, dark room. There is a glow coming from an open door to the east."
      ExtraDescriptions :=
        [("door", "You see a large empty room on the other side of the door.")]
      Exits := { East := 1 } } ]

/-- Go `buildTheWorld`. -/
def buildTheWorld (s : State) : State :=
  { s with rooms := s.rooms ++ worldRooms }

/-- Raw `player.Conn.Write(data)`. -/
def connWrite (p : Nat) (data : String) (s : State) : State :=
  { s with out := s.out ++ [Event.write p data] }

/-- Bytes that `sendMessage` writes for a message. -/
def frame (message : String) : String := "\r" ++ message ++ "\r\n> "

/-- Go `(*Player).sendMessage`. -/
def sendMessage (p : Nat) (message : String) (s : State) : State :=
  connWrite p (frame message) s

/-- Loop of `broadcast` over the remaining recipients. -/
def broadcastLoop (p : Nat) (message : String) : List Nat → State → State
  | [], s => s
  | recipient :: rest, s =>
    if (s.heap recipient).Id = (s.heap p).Id then broadcastLoop p message rest s
    else broadcastLoop p message rest (sendMessage recipient message s)

/-- Go `broadcast`. -/
def broadcast (p : Nat) (message : String) (s : State) : State :=
  broadcastLoop p message s.players s

/-- Loop of `sendToRoom` over the remaining recipients. -/
def sendToRoomLoop (p : Nat) (message : String) : List Nat → State → Run
  | [], s => Run.done s
  | recipient :: rest, s =>
    if (s.heap recipient).Id = (s.heap p).Id then sendToRoomLoop p message rest s
    else
      match s.roomAt (s.heap recipient).Room, s.roomAt (s.heap p).Room with
      | some rr, some pr =>
        if rr.Id ≠ pr.Id then sendToRoomLoop p message rest s
        else sendToRoomLoop p message rest (sendMessage recipient message s)
      | _, _ => Run.panic s

/-- Go `(*Player).sendToRoom`. -/
def sendToRoom (p : Nat) (message : String) (s : State) : Run :=
  sendToRoomLoop p message s.players s

/-- Go `(*Player).prompt`; `answer` is the line the scanner returns. -/
def prompt (p : Nat) (message : String) (answer : String) (s : State) : String × State :=
  (answer, connWrite p ("\r" ++ message ++ " ") s)

/-- Go `(*Player).chat`. -/
def chat (p : Nat) (message : String) (s : State) : State :=
  broadcast p ((s.heap p).Name ++ ": " ++ message) (sendMessage p ("You: " ++ message) s)

/-- Loop of `look` that accumulates `playerList`; `none` is a nil-pointer panic. -/
def lookLoop (s : State) (p : Nat) : List Nat → String → Option String
  | [], playerList => some playerList
  | other :: rest, playerList =>
    if (s.heap other).Id ≠ (s.heap p).Id then
      match s.roomAt (s.heap other).Room, s.roomAt (s.heap p).Room with
      | some ro, some rp =>
        if ro.Id = rp.Id then
          lookLoop s p rest (playerList ++ (s.heap other).Name ++ " is standing here.\r\n")
        else lookLoop s p rest playerList
      | _, _ => none
    else lookLoop s p rest playerList

/-- Go `(*Player).look`. -/
def look (p : Nat) (arg : String) (s : State) : Run :=
  if len arg = 0 then
    match lookLoop s p s.players "" with
    | none => Run.panic s
    | some playerList =>
      match s.roomAt (s.heap p).Room with
      | none => Run.panic s
      | some r =>
        Run.done (sendMessage p (r.Name ++ "\r\n" ++ r.Description ++ "\r\n" ++ playerList) s)
  else
    match s.roomAt (s.heap p).Room with
    | none => Run.panic s
    | some r =>
      if len (mapGet r.ExtraDescriptions arg) > 0 then
        Run.done (sendMessage p (mapGet r.ExtraDescriptions arg) s)
      else
        Run.done (sendMessage p
          ("There is nothing by the name of '" ++ arg ++ "' to look at here.") s)

/-- Go `getRoom`: pointer to the first room of the table with the given `Id`, else `nil`. -/
def getRoomFrom (id : Int) : List Room → Nat → Option Nat
  | [], _ => none
  | room :: rest, i => if room.Id = id then some i else getRoomFrom id rest (i + 1)

/-- Go `getRoom` on the global table. -/
def getRoom (s : State) (id : Int) : Option Nat := getRoomFrom id s.rooms 0

/-- Value of `newRoom` after the `switch` of `move`; the outer `none` is a nil-pointer panic
on `player.Room`. -/
def moveTarget (p : Nat) (direction : String) (s : State) : Option (Option Nat) :=
  let cur := (s.heap p).Room
  if direction = "north" then
    match s.roomAt cur with
    | none => none
    | some r => if r.Exits.North > 0 then some (getRoom s r.Exits.North) else some cur
  else if direction = "east" then
    match s.roomAt cur with
    | none => none
    | some r => if r.Exits.East > 0 then some (getRoom s r.Exits.East) else some cur
  else if direction = "west" then
    match s.roomAt cur with
    | none => none
    | some r => if r.Exits.West > 0 then some (getRoom s r.Exits.West) else some cur
  else if direction = "south" then
    match s.roomAt cur with
    | none => none
    | some r => if r.Exits.South > 0 then some (getRoom s r.Exits.South) else some cur
  else some cur

/-- Go `(*Player).move`. -/
def move (p : Nat) (direction : String) (s : State) : Run :=
  let oldRoom := (s.heap p).Room
  match moveTarget p direction s with
  | none => Run.panic s
  | some newRoom =>
    if oldRoom ≠ newRoom then
      (sendToRoom p ((s.heap p).Name ++ " left to the " ++ direction ++ ".") s).andThen fun s1 =>
        let s2 := s1.setRoom p newRoom
        (sendToRoom p ((s2.heap p).Name ++ " has arrived.") s2).andThen fun s3 =>
          look p "" s3
    else Run.done s

/-- Go `(*Player).quit`. -/
def quit (p : Nat) (s : State) : State :=
  let s1 := broadcast p ((s.heap p).Name ++ " has logged off.") s
  let newPlayers := s1.players.filter (fun remaining => (s1.heap remaining).Id ≠ (s1.heap p).Id)
  { s1 with players := newPlayers, out := s1.out ++ [Event.close p] }

/-- Go `(*Player).welcome`; `name` is the line read by `prompt`. -/
def welcome (p : Nat) (name : String) (s : State) : State :=
  let r := prompt p "Hi! Please enter your name:" name s
  sendMessage p ("Welcome " ++ r.1 ++ "! Type 'quit' to quit.\r\n\r\n") (r.2.setName p r.1)

/-- Go `(*Player).handleInput`. -/
def handleInput (p : Nat) (input : String) (s : State) : Run :=
  match Fields input with
  | [] => Run.panic s
  | command :: _ =>
    let args := TrimPrefix input (command ++ " ")
    if command = "quit" then Run.done (quit p s)
    else if command = "chat" then Run.done (chat p args s)
    else if command = "look" then look p args s
    else if command = "north" ∨ command = "east" ∨ command = "south" ∨ command = "west" then
      move p command s
    else Run.done (sendMessage p ("Sorry, " ++ command ++ " isn't a valid command.") s)

/-- Body of the accept loop of `main` once `Accept` has returned a connection: allocate the
`Player`, append it to the registry (the goroutine is started by the caller). -/
def accept (s : State) : Run :=
  match s.rooms with
  | [] => Run.panic s
  | _ :: _ =>
    let newPlayer : Player := { Id := (s.players.length : Int), Name := "", Room := some 0 }
    Run.done { s with
      heap := fun a => if a = s.next then newPlayer else s.heap a
      next := s.next + 1
      players := s.players ++ [s.next] }

/-- Scanner loop of `handleRequest`; `lines` are the lines for which `scanner.Scan()` returns
true, the loop ends when it returns false (end of input or read error). -/
def handleLines (p : Nat) : List String → State → Run
  | [], s => Run.done s
  | input :: rest, s =>
    match handleInput p input (connWrite p "> " s) with
    | Run.done s1 => handleLines p rest s1
    | Run.panic s1 => Run.panic s1

/-- Go `handleRequest`. -/
def handleRequest (p : Nat) (name : String) (lines : List String) (s : State) : Run :=
  (look p "" (welcome p name s)).andThen (handleLines p lines)

/-- State of the process when `main` starts: empty tables, nothing written. -/
def State.empty : State :=
  { rooms := [], heap := fun _ => { Id := 0, Name := "", Room := none }, next := 0,
    players := [], out := [] }

/-- State of `main` when it enters the accept loop. -/
def initial : State := buildTheWorld State.empty

/-! ## Vocabulary of the properties -/

/-- Identifiers of the registered players, in registry order. -/
def registryIds (s : State) : List Int := s.players.map (fun a => (s.heap a).Id)

/-- Trace appended between state `s` and a later state `t`. -/
def emitted (s t : State) : List Event := t.out.drop s.out.length

/-- Payloads written, in order, to the connection of the player at address `q`. -/
def sentTo (q : Nat) (evs : List Event) : List String :=
  evs.filterMap fun e =>
    match e with
    | Event.write r data => if r = q then some data else none
    | Event.close _ => none

/-- Identifier of the room the player at address `q` is in (`none` for a nil room). -/
def roomIdOf (s : State) (q : Nat) : Option Int := (s.roomAt (s.heap q).Room).map Room.Id

/-- Registered players other than `p` whose current room has identifier `rid`. -/
def othersIn (s : State) (p : Nat) (rid : Int) : List Nat :=
  s.players.filter fun q => q ≠ p ∧ roomIdOf s q = some rid

/-- Occupant lines that `look` accumulates in `playerList` for the players of `l`. -/
def occupantLines (s : State) (l : List Nat) : String :=
  l.foldl (fun playerList q => playerList ++ (s.heap q).Name ++ " is standing here.\r\n") ""

/-- Exit value that `move` inspects for a direction word. -/
def Exits.toward (e : Exits) (direction : String) : Int :=
  if direction = "north" then e.North
  else if direction = "east" then e.East
  else if direction = "west" then e.West
  else if direction = "south" then e.South
  else 0

/-- Operations of the registry life cycle: a connection accept, or a `quit` by a player. -/
inductive Op where
  | accept
  | quit (p : Nat)
deriving DecidableEq, Repr

/-- One life-cycle operation; `quit` is only issued by a registered player. -/
def stepOp (s : State) : Op → Option State
  | Op.accept =>
    match accept s with
    | Run.done t => some t
    | Run.panic _ => none
  | Op.quit p => if p ∈ s.players then some (quit p s) else none

/-- Runs a sequence of life-cycle operations from a state. -/
def runOps : List Op → State → Option State
  | [], s => some s
  | op :: rest, s =>
    match stepOp s op with
    | some t => runOps rest t
    | none => none

/-- Trace in which the first player leaves and a third connection is then accepted. -/
def reuseTrace : List Op := [Op.accept, Op.accept, Op.quit 0, Op.accept]

/-- State with a single connected player, standing in the first room. -/
def soloState : State := (accept initial).state

/-- State with two connected players, `alice` at address 0 and `bob` at address 1, both
welcomed and standing in the first room. -/
def duoState : State :=
  welcome 1 "bob" (welcome 0 "alice" (accept (accept initial).state).state)

/-- Message of `look` when the room has nothing to show under the keyword. -/
def nothingToLookAt (arg : String) : String :=
  "There is nothing by the name of '" ++ arg ++ "' to look at here."

/-- Room table of one room whose extra description `sign` is registered with an empty text. -/
def blankSignRooms : List Room :=
  [ { Id := 1, Name := "A hall", Description := "You are standing in a hall.",
      ExtraDescriptions := [("sign", "")], Exits := {} } ]

/-- State with one connected player standing in the room of `blankSignRooms`. -/
def blankSignState : State := (accept { State.empty with rooms := blankSignRooms }).state

/-- Invariant of the running server: the room table is the world built by `buildTheWorld` and
the current room of every registered player is one of its rooms (never nil). -/
def roomsValid (s : State) : Prop :=
  s.rooms = worldRooms ∧ ∀ q ∈ s.players, roomIdOf s q ≠ none

instance (s : State) : Decidable (roomsValid s) := by
  unfold roomsValid
  exact inferInstance

/-! ## Interleaved `chat` calls

Several connection goroutines may be inside `chat` at the same time.  A `chat` call is cut at
its connection writes: the echo, the entry into `broadcast` (where the message text and the
slice `players` are evaluated), and one iteration of the `range` loop per step.  A schedule
names, step after step, the task that runs next. -/

/-- Progress of one call `player.chat(message)`. -/
inductive ChatTask where
  | start (p : Nat) (message : String)
  | echoed (p : Nat) (message : String)
  | looping (p : Nat) (text : String) (rest : List Nat)
  | finished
deriving DecidableEq, Repr

/-- One step of a `chat` call: `sendMessage("You: " + message)`, then the call of `broadcast`
with `player.Name + ": " + message`, then one iteration of its loop per step. -/
def ChatTask.step : ChatTask → State → ChatTask × State
  | ChatTask.start p message, s =>
    (ChatTask.echoed p message, sendMessage p ("You: " ++ message) s)
  | ChatTask.echoed p message, s =>
    (ChatTask.looping p ((s.heap p).Name ++ ": " ++ message) s.players, s)
  | ChatTask.looping _ _ [], s => (ChatTask.finished, s)
  | ChatTask.looping p text (recipient :: rest), s =>
    if (s.heap recipient).Id = (s.heap p).Id then (ChatTask.looping p text rest, s)
    else (ChatTask.looping p text rest, sendMessage recipient text s)
  | ChatTask.finished, s => (ChatTask.finished, s)

/-- The scheduler lets task number `i` take one step. -/
def stepAt (i : Nat) (tasks : List ChatTask) (s : State) : List ChatTask × State :=
  match tasks[i]? with
  | none => (tasks, s)
  | some task => (tasks.set i (task.step s).1, (task.step s).2)

/-- Runs the tasks under a schedule, a list of task numbers. -/
def runSchedule : List Nat → List ChatTask → State → List ChatTask × State
  | [], tasks, s => (tasks, s)
  | i :: rest, tasks, s => runSchedule rest (stepAt i tasks s).1 (stepAt i tasks s).2

/-- Player that runs the task, if it is still running. -/
def ChatTask.player : ChatTask → Option Nat
  | ChatTask.start p _ => some p
  | ChatTask.echoed p _ => some p
  | ChatTask.looping p _ _ => some p
  | ChatTask.finished => none

/-- Recipients the loop of `broadcast` has still to visit. -/
def ChatTask.pending : ChatTask → List Nat
  | ChatTask.looping _ _ rest => rest
  | _ => []

/-- Echo the task has still to write. -/
def ChatTask.echo : ChatTask → List Event
  | ChatTask.start p message => [Event.write p (frame ("You: " ++ message))]
  | _ => []

/-- State reached by `reuseTrace` once the two registered players, at addresses 1 and 2, have
given their names. -/
def sharedIdState : State :=
  welcome 2 "carol" (welcome 1 "bob"
    (accept (quit 0 (accept (accept initial).state).state)).state)

/-- The two registered players of `sharedIdState` each issue one `chat`. -/
def sharedIdChats : List ChatTask := [ChatTask.start 1 "hi", ChatTask.start 2 "yo"]

end GoMud

namespace GoMud

/-! ## Basic facts about the primitives -/

theorem sendMessage_out (p : Nat) (m : String) (s : State) :
    (sendMessage p m s).out = s.out ++ [Event.write p (frame m)] := rfl

theorem look_cases (p : Nat) (arg : String) (s : State) :
    look p arg s = Run.panic s ∨ ∃ m, look p arg s = Run.done (sendMessage p m s) := by
  unfold look
  split
  · split
    · exact Or.inl rfl
    · split
      · exact Or.inl rfl
      · exact Or.inr ⟨_, rfl⟩
  · split
    · exact Or.inl rfl
    · split
      · exact Or.inr ⟨_, rfl⟩
      · exact Or.inr ⟨_, rfl⟩

/-! ## C1: an input line without tokens -/

theorem handleInput_no_tokens_panics (p : Nat) (input : String) (s : State)
    (h : Fields input = []) : handleInput p input s = Run.panic s := by
  simp only [handleInput, h]

/-- C1 (code fault): on the empty line, and on a line of blanks, `handleInput` indexes the
empty result of `strings.Fields` and panics, whatever the session and the state. -/
theorem handleInput_blank_line_panics (p : Nat) (s : State) :
    Fields "" = [] ∧ Fields "  \t " = [] ∧
    handleInput p "" s = Run.panic s ∧ handleInput p "  \t " s = Run.panic s := by
  have h1 : Fields "" = [] := by decide
  have h2 : Fields "  \t " = [] := by decide
  exact ⟨h1, h2, handleInput_no_tokens_panics p _ s h1, handleInput_no_tokens_panics p _ s h2⟩

/-! ## C2: identifier uniqueness -/

/-- C2 (code fault): after two accepts, a quit by the first player and a third accept, the
registry holds two players (at addresses 1 and 2) that both carry the identifier 1. -/
theorem registry_ids_collide_after_reuse :
    ∃ s, runOps reuseTrace initial = some s ∧ s.players = [1, 2] ∧
      registryIds s = [1, 1] ∧ ¬ (registryIds s).Nodup := by
  refine ⟨_, rfl, ?_, ?_, ?_⟩
  · decide
  · decide
  · decide

/-! ## C3: the bare `look` command -/

/-- C3 (code fault): for the line `look` the argument handed to `look` is the whole line, so
the lone player of `soloState` is told that nothing is called `look`, while `look` with the
empty argument would have rendered the room. -/
theorem handleInput_bare_look_misses_room (p : Nat) (s : State) :
    handleInput p "look" s = look p "look" s ∧
    emitted soloState (handleInput 0 "look" soloState).state =
      [Event.write 0 (frame "There is nothing by the name of 'look' to look at here.")] ∧
    emitted soloState (look 0 "" soloState).state =
      [Event.write 0 (frame ("An empty room" ++ "\r\n" ++ "You are standing in a nice big empty room. There is nothing on the walls, nothing on the floor, and nothing on the ceiling. There is an open door to the west." ++ "\r\n"))] := by
  refine ⟨?_, by decide, by rfl⟩
  have hf : Fields "look" = ["look"] := by decide
  have ht : TrimPrefix "look" ("look" ++ " ") = "look" := by decide
  simp only [handleInput, hf, ht]
  simp

/-! ## Trace bookkeeping -/

theorem emitted_of_out_eq {s t : State} {l : List Event} (h : t.out = s.out ++ l) :
    emitted s t = l := by
  simp [emitted, h]

theorem sentTo_append (q : Nat) (l₁ l₂ : List Event) :
    sentTo q (l₁ ++ l₂) = sentTo q l₁ ++ sentTo q l₂ := by
  simp [sentTo, List.filterMap_append]

theorem sentTo_writes (q : Nat) (data : String) (l : List Nat) :
    sentTo q (l.map fun r => Event.write r data) = List.replicate (l.count q) data := by
  induction l with
  | nil => simp [sentTo]
  | cons r rest ih =>
    have ih2 : List.filterMap (fun e => match e with
        | Event.write r data => if r = q then some data else none
        | Event.close _ => none) (List.map (fun r => Event.write r data) rest)
        = List.replicate (List.count q rest) data := ih
    by_cases h : r = q
    · subst h
      simp [sentTo, List.filterMap_cons, ih2, List.replicate_succ]
    · have h2 : ¬ q = r := fun e => h e.symm
      simp [sentTo, List.filterMap_cons, ih2, h, List.count_cons, h2]

theorem sentTo_writes_of_not_mem (q : Nat) (data : String) (l : List Nat) (h : q ∉ l) :
    sentTo q (l.map fun r => Event.write r data) = [] := by
  rw [sentTo_writes, List.count_eq_zero_of_not_mem h]; rfl

theorem sentTo_writes_of_mem (q : Nat) (data : String) (l : List Nat) (hn : l.Nodup)
    (h : q ∈ l) : sentTo q (l.map fun r => Event.write r data) = [data] := by
  rw [sentTo_writes, List.count_eq_one_of_mem hn h]; rfl

/-! ## The broadcast loops -/

theorem broadcastLoop_eq (p : Nat) (m : String) (l : List Nat) (s : State) :
    broadcastLoop p m l s =
      { s with out := s.out ++
          (l.filter fun r => (s.heap r).Id ≠ (s.heap p).Id).map fun r =>
            Event.write r (frame m) } := by
  induction l generalizing s with
  | nil => simp [broadcastLoop]
  | cons r rest ih =>
    unfold broadcastLoop
    by_cases h : (s.heap r).Id = (s.heap p).Id
    · rw [if_pos h, ih]
      simp [List.filter_cons, h]
    · rw [if_neg h, ih]
      simp [List.filter_cons, h, sendMessage, connWrite]

theorem broadcast_eq (p : Nat) (m : String) (s : State) :
    broadcast p m s =
      { s with out := s.out ++
          (s.players.filter fun r => (s.heap r).Id ≠ (s.heap p).Id).map fun r =>
            Event.write r (frame m) } :=
  broadcastLoop_eq p m s.players s

theorem nodup_players_of_ids {s : State} (h : (registryIds s).Nodup) : s.players.Nodup :=
  List.Nodup.of_map _ h

theorem id_ne_of_ne {s : State} (h : (registryIds s).Nodup) {p q : Nat}
    (hp : p ∈ s.players) (hq : q ∈ s.players) (hne : q ≠ p) :
    (s.heap q).Id ≠ (s.heap p).Id := by
  intro e
  exact hne (List.inj_on_of_nodup_map h hq hp e)

theorem filter_id_eq_filter_ne {s : State} (h : (registryIds s).Nodup) {p : Nat}
    (hp : p ∈ s.players) :
    (s.players.filter fun r => (s.heap r).Id ≠ (s.heap p).Id) =
      s.players.filter fun r => r ≠ p := by
  apply List.filter_congr
  intro q hq
  by_cases e : q = p
  · subst e; simp
  · simp [e, id_ne_of_ne h hp hq e]

theorem sendToRoomLoop_trace (p : Nat) (m : String) (l : List Nat) (s : State) :
    ∃ l' : List Nat, l'.Sublist l ∧
      (sendToRoomLoop p m l s).state =
        { s with out := s.out ++ l'.map fun r => Event.write r (frame m) } := by
  induction l generalizing s with
  | nil => exact ⟨[], List.Sublist.refl _, by simp [sendToRoomLoop, Run.state]⟩
  | cons r rest ih =>
    unfold sendToRoomLoop
    by_cases h : (s.heap r).Id = (s.heap p).Id
    · rw [if_pos h]
      obtain ⟨l', hl, he⟩ := ih s
      exact ⟨l', hl.cons r, he⟩
    · rw [if_neg h]
      split
      · split
        · obtain ⟨l', hl, he⟩ := ih s
          exact ⟨l', hl.cons r, he⟩
        · obtain ⟨l', hl, he⟩ := ih (sendMessage r m s)
          refine ⟨r :: l', hl.cons₂ r, ?_⟩
          rw [he]
          simp [sendMessage, connWrite]
      · exact ⟨[], List.nil_sublist _, by simp [Run.state]⟩

/-! ## C4: `quit` -/

/-- C4: in a registry with pairwise distinct Ids, `quit` by a registered player `p` writes the
notice `<p.Name> has logged off.` exactly once to every other registered player and nothing to
`p`; afterwards `p` is not registered, and in any state whose registry does not contain `p`
neither `broadcast` nor `sendToRoom` by any player writes to `p`. -/
theorem quit_notifies_others_and_unregisters (s : State) (p : Nat)
    (hids : (registryIds s).Nodup) (hp : p ∈ s.players) :
    (∀ q ∈ s.players, q ≠ p →
        sentTo q (emitted s (quit p s)) = [frame ((s.heap p).Name ++ " has logged off.")]) ∧
    sentTo p (emitted s (quit p s)) = [] ∧
    p ∉ (quit p s).players ∧
    (∀ t : State, p ∉ t.players → ∀ (q : Nat) (m : String),
        sentTo p (emitted t (broadcast q m t)) = [] ∧
        sentTo p (emitted t (sendToRoom q m t).state) = []) := by
  have hout : (quit p s).out = s.out ++
      (((s.players.filter fun r => r ≠ p).map fun r =>
          Event.write r (frame ((s.heap p).Name ++ " has logged off."))) ++ [Event.close p]) := by
    simp only [quit, broadcast_eq, filter_id_eq_filter_ne hids hp]
    simp
  have hem := emitted_of_out_eq hout
  have hnd := nodup_players_of_ids hids
  refine ⟨?_, ?_, ?_, ?_⟩
  · intro q hq hne
    rw [hem, sentTo_append, sentTo_writes_of_mem q _ _ (hnd.filter _)
      (List.mem_filter.mpr ⟨hq, by simpa using hne⟩)]
    simp [sentTo]
  · rw [hem, sentTo_append, sentTo_writes_of_not_mem p _ _ (by simp [List.mem_filter])]
    simp [sentTo]
  · simp [quit, broadcast_eq, List.mem_filter]
  · intro t ht q m
    constructor
    · have h1 : (broadcast q m t).out = t.out ++
          ((t.players.filter fun r => (t.heap r).Id ≠ (t.heap q).Id).map fun r =>
            Event.write r (frame m)) := by
        rw [broadcast_eq]
      rw [emitted_of_out_eq h1]
      exact sentTo_writes_of_not_mem p _ _ (fun h => ht (List.mem_of_mem_filter h))
    · obtain ⟨l', hl, he⟩ := sendToRoomLoop_trace q m t.players t
      have h1 : (sendToRoom q m t).state.out = t.out ++
          (l'.map fun r => Event.write r (frame m)) := by
        unfold sendToRoom
        rw [he]
      rw [emitted_of_out_eq h1]
      exact sentTo_writes_of_not_mem p _ _ (fun h => ht (hl.subset h))

theorem quit_notifies_others_and_unregisters_witness :
    sentTo 1 (emitted duoState (quit 0 duoState)) = [frame ("alice" ++ " has logged off.")] ∧
    sentTo 0 (emitted duoState (quit 0 duoState)) = [] ∧
    0 ∉ (quit 0 duoState).players ∧
    sentTo 0 (emitted (quit 0 duoState) (broadcast 1 "hello" (quit 0 duoState))) = [] :=
  have h := quit_notifies_others_and_unregisters duoState 0 (by decide) (by decide)
  ⟨h.1 1 (by decide) (by decide), h.2.1, h.2.2.1, (h.2.2.2 _ h.2.2.1 1 "hello").1⟩

/-! ## C5: what `quit` removes -/

/-- C5 (code fault): in the state reached by `reuseTrace` the players at addresses 1 and 2 are
registered under the same Id, and a `quit` by the player at address 2 empties the registry: the
player at address 1, whose connection is not closed, is removed too. -/
theorem quit_removes_player_sharing_id :
    ∃ s, runOps reuseTrace initial = some s ∧ s.players = [1, 2] ∧
      runOps (reuseTrace ++ [Op.quit 2]) initial = some (quit 2 s) ∧
      (quit 2 s).players = [] ∧ Event.close 1 ∉ (quit 2 s).out := by
  refine ⟨_, rfl, ?_, rfl, ?_, ?_⟩
  · decide
  · decide
  · decide

/-! ## C6: end of input -/

/-- C6 (code fault): when the scanner loop of `handleRequest` finds no further line, the
function returns (or has panicked in the initial `look`) with the registry exactly as it was
and with nothing written or closed except writes to the player itself: no departure notice is
sent and the player stays registered. -/
theorem handleRequest_end_of_input_no_teardown (p : Nat) (name : String) (s : State) :
    (handleRequest p name [] s).state.players = s.players ∧
    (∀ e ∈ emitted s (handleRequest p name [] s).state, ∃ data, e = Event.write p data) ∧
    (handleRequest 0 "alice" [] (accept (accept initial).state).state).state.players = [0, 1] ∧
    sentTo 1 (emitted (accept (accept initial).state).state
      (handleRequest 0 "alice" [] (accept (accept initial).state).state).state) = [] := by
  have hwp : (welcome p name s).players = s.players := rfl
  have hwo : (welcome p name s).out = s.out ++
      [Event.write p ("\r" ++ "Hi! Please enter your name:" ++ " "),
       Event.write p (frame ("Welcome " ++ name ++ "! Type 'quit' to quit.\r\n\r\n"))] := by
    simp [welcome, prompt, sendMessage, connWrite, State.setName]
  refine ⟨?_, ?_, by decide, by decide⟩
  · unfold handleRequest
    rcases look_cases p "" (welcome p name s) with h | ⟨m, h⟩
    · rw [h]; exact hwp
    · rw [h]; exact hwp
  · unfold handleRequest
    rcases look_cases p "" (welcome p name s) with h | ⟨m, h⟩
    · rw [h]
      have ho : (Run.andThen (Run.panic (welcome p name s)) (handleLines p [])).state.out =
          s.out ++ _ := hwo
      rw [emitted_of_out_eq ho]
      intro e he
      simp only [List.mem_cons, List.mem_singleton, List.not_mem_nil, or_false] at he
      rcases he with he | he <;> exact ⟨_, he⟩
    · rw [h]
      have ho : (Run.andThen (Run.done (sendMessage p m (welcome p name s)))
          (handleLines p [])).state.out =
          s.out ++ [Event.write p ("\r" ++ "Hi! Please enter your name:" ++ " "),
           Event.write p (frame ("Welcome " ++ name ++ "! Type 'quit' to quit.\r\n\r\n")),
           Event.write p (frame m)] := by
        show (sendMessage p m (welcome p name s)).out = _
        rw [sendMessage_out, hwo]
        simp
      rw [emitted_of_out_eq ho]
      intro e he
      simp only [List.mem_cons, List.mem_singleton, List.not_mem_nil, or_false] at he
      rcases he with he | he | he <;> exact ⟨_, he⟩

/-! ## C7: `chat` -/

/-- C7: in a registry with pairwise distinct Ids, `chat m` by a registered player `a` writes to
`a` exactly one message, the echo `You: m`, and to every other registered player, whatever its
room, exactly one message, `<a.Name>: m`. -/
theorem chat_echo_and_broadcast (s : State) (a : Nat) (m : String)
    (hids : (registryIds s).Nodup) (ha : a ∈ s.players) :
    sentTo a (emitted s (chat a m s)) = [frame ("You: " ++ m)] ∧
    (∀ b ∈ s.players, b ≠ a →
        sentTo b (emitted s (chat a m s)) = [frame ((s.heap a).Name ++ ": " ++ m)]) := by
  have hout : (chat a m s).out = s.out ++
      ([Event.write a (frame ("You: " ++ m))] ++
        ((s.players.filter fun r => r ≠ a).map fun r =>
          Event.write r (frame ((s.heap a).Name ++ ": " ++ m)))) := by
    simp only [chat, broadcast_eq]
    simp only [sendMessage, connWrite, filter_id_eq_filter_ne hids ha]
    simp
  have hem := emitted_of_out_eq hout
  have hnd := nodup_players_of_ids hids
  constructor
  · rw [hem, sentTo_append, sentTo_writes_of_not_mem a _ _ (by simp [List.mem_filter])]
    simp [sentTo]
  · intro b hb hne
    rw [hem, sentTo_append, sentTo_writes_of_mem b _ _ (hnd.filter _)
      (List.mem_filter.mpr ⟨hb, by simpa using hne⟩)]
    simp [sentTo, hne.symm]

theorem chat_echo_and_broadcast_witness :
    sentTo 0 (emitted duoState (chat 0 "hi all" duoState)) = [frame ("You: " ++ "hi all")] ∧
    sentTo 1 (emitted duoState (chat 0 "hi all" duoState)) =
      [frame ("alice" ++ ": " ++ "hi all")] :=
  have h := chat_echo_and_broadcast duoState 0 "hi all" (by decide) (by decide)
  ⟨h.1, h.2 1 (by decide) (by decide)⟩

/-! ## C9: moving where there is no exit -/

/-- C9: when the current room of `p` has exit value 0 in the direction `d` (one of the four
direction words), `move d` completes in the very same state: the room of `p` is unchanged and
nothing is written to anybody. -/
theorem move_without_exit_is_noop (s : State) (p : Nat) (d : String) (r : Room)
    (hd : d = "north" ∨ d = "east" ∨ d = "south" ∨ d = "west")
    (hr : s.roomAt (s.heap p).Room = some r) (h0 : r.Exits.toward d = 0) :
    move p d s = Run.done s ∧ emitted s (move p d s).state = [] ∧
    ((move p d s).state.heap p).Room = (s.heap p).Room := by
  have hm : move p d s = Run.done s := by
    rcases hd with h | h | h | h <;> subst h <;>
      simp [Exits.toward] at h0 <;>
      simp [move, moveTarget, hr, h0]
  rw [hm]
  exact ⟨rfl, by simp [emitted, Run.state], rfl⟩

theorem move_without_exit_is_noop_witness :
    move 0 "north" duoState = Run.done duoState ∧
    emitted duoState (move 0 "north" duoState).state = [] ∧
    ((move 0 "north" duoState).state.heap 0).Room = (duoState.heap 0).Room :=
  move_without_exit_is_noop duoState 0 "north" (worldRooms.get ⟨0, by decide⟩)
    (Or.inl rfl) (by decide) (by decide)

/-! ## C10: unknown commands -/

/-- C10: when the first token `t` of the input line is none of the seven command words,
`handleInput` completes after exactly one write, the message `Sorry, <t> isn't a valid
command.` to `p`; registry, player objects and room table are unchanged. -/
theorem handleInput_unknown_command (s : State) (p : Nat) (input t : String)
    (ht : (Fields input).head? = some t)
    (hn : t ≠ "quit" ∧ t ≠ "chat" ∧ t ≠ "look" ∧ t ≠ "north" ∧ t ≠ "east" ∧ t ≠ "south" ∧
      t ≠ "west") :
    ∃ s', handleInput p input s = Run.done s' ∧
      emitted s s' = [Event.write p (frame ("Sorry, " ++ t ++ " isn't a valid command."))] ∧
      s'.players = s.players ∧ s'.heap = s.heap ∧ s'.rooms = s.rooms := by
  obtain ⟨h1, h2, h3, h4, h5, h6, h7⟩ := hn
  refine ⟨sendMessage p ("Sorry, " ++ t ++ " isn't a valid command.") s, ?_, ?_, rfl, rfl, rfl⟩
  · unfold handleInput
    cases hf : Fields input with
    | nil => simp [hf] at ht
    | cons c rest =>
      have hc : c = t := by simpa [hf] using ht
      subst hc
      simp [h1, h2, h3, h4, h5, h6, h7]
  · exact emitted_of_out_eq (sendMessage_out _ _ _)

theorem handleInput_unknown_command_witness :
    ∃ s', handleInput 0 "dance with me" duoState = Run.done s' ∧
      emitted duoState s' =
        [Event.write 0 (frame ("Sorry, " ++ "dance" ++ " isn't a valid command."))] ∧
      s'.players = duoState.players ∧ s'.heap = duoState.heap ∧ s'.rooms = duoState.rooms :=
  handleInput_unknown_command duoState 0 "dance with me" "dance" (by decide) (by decide)

/-! ## The room-scoped loops when every recipient has a room -/

theorem roomIdOf_congr {s t : State} (q : Nat) (hr : t.rooms = s.rooms)
    (hq : t.heap q = s.heap q) : roomIdOf t q = roomIdOf s q := by
  unfold roomIdOf State.roomAt
  rw [hq, hr]

theorem sendMessage_heap (r : Nat) (m : String) (s : State) :
    (sendMessage r m s).heap = s.heap := rfl

theorem roomIdOf_sendMessage (r : Nat) (m : String) (s : State) (q : Nat) :
    roomIdOf (sendMessage r m s) q = roomIdOf s q := rfl

theorem sendToRoomLoop_eq (p : Nat) (m : String) (pr : Room) (l : List Nat) (s : State)
    (hpr : s.roomAt (s.heap p).Room = some pr)
    (hall : ∀ q ∈ l, (s.heap q).Id ≠ (s.heap p).Id → roomIdOf s q ≠ none) :
    sendToRoomLoop p m l s = Run.done
      { s with out := s.out ++
          (List.map (fun q => Event.write q (frame m))
            (l.filter fun q => (s.heap q).Id ≠ (s.heap p).Id ∧ roomIdOf s q = some pr.Id)) } := by
  induction l generalizing s with
  | nil => simp [sendToRoomLoop]
  | cons r rest ih =>
    have hrest : ∀ q ∈ rest, (s.heap q).Id ≠ (s.heap p).Id → roomIdOf s q ≠ none :=
      fun q hq => hall q (List.mem_cons_of_mem _ hq)
    unfold sendToRoomLoop
    by_cases h : (s.heap r).Id = (s.heap p).Id
    · rw [if_pos h, ih s hpr hrest]
      simp [List.filter_cons, h]
    · rw [if_neg h]
      have hsome := hall r (List.mem_cons_self _ _) h
      cases hrr : s.roomAt (s.heap r).Room with
      | none => simp [roomIdOf, hrr] at hsome
      | some rr =>
        have hid : roomIdOf s r = some rr.Id := by simp [roomIdOf, hrr]
        simp only [hpr]
        by_cases e : rr.Id = pr.Id
        · rw [if_neg (by simpa using e), ih (sendMessage r m s) hpr hrest]
          simp only [sendMessage_heap, roomIdOf_sendMessage]
          simp [List.filter_cons, h, hid, e, sendMessage, connWrite]
        · rw [if_pos (by simpa using e), ih s hpr hrest]
          simp [List.filter_cons, h, hid, e]

theorem lookLoop_eq (p : Nat) (pr : Room) (l : List Nat) (s : State) (acc : String)
    (hpr : s.roomAt (s.heap p).Room = some pr)
    (hall : ∀ q ∈ l, (s.heap q).Id ≠ (s.heap p).Id → roomIdOf s q ≠ none) :
    lookLoop s p l acc = some
      ((l.filter fun q => (s.heap q).Id ≠ (s.heap p).Id ∧ roomIdOf s q = some pr.Id).foldl
        (fun playerList q => playerList ++ (s.heap q).Name ++ " is standing here.\r\n") acc) := by
  induction l generalizing acc with
  | nil => simp [lookLoop]
  | cons r rest ih =>
    have hrest : ∀ q ∈ rest, (s.heap q).Id ≠ (s.heap p).Id → roomIdOf s q ≠ none :=
      fun q hq => hall q (List.mem_cons_of_mem _ hq)
    unfold lookLoop
    by_cases h : (s.heap r).Id = (s.heap p).Id
    · rw [if_neg (by simpa using h), ih _ hrest]
      simp [List.filter_cons, h]
    · rw [if_pos h]
      have hsome := hall r (List.mem_cons_self _ _) h
      cases hrr : s.roomAt (s.heap r).Room with
      | none => simp [roomIdOf, hrr] at hsome
      | some rr =>
        have hid : roomIdOf s r = some rr.Id := by simp [roomIdOf, hrr]
        simp only [hpr]
        by_cases e : rr.Id = pr.Id
        · rw [if_pos e, ih _ hrest]
          simp [List.filter_cons, h, hid, e]
        · rw [if_neg e, ih _ hrest]
          simp [List.filter_cons, h, hid, e]

theorem filter_others_eq {s : State} (h : (registryIds s).Nodup) {p : Nat}
    (hp : p ∈ s.players) (rid : Int) :
    (s.players.filter fun q => (s.heap q).Id ≠ (s.heap p).Id ∧ roomIdOf s q = some rid) =
      othersIn s p rid := by
  unfold othersIn
  apply List.filter_congr
  intro q hq
  by_cases e : q = p
  · subst e; simp
  · simp [e, id_ne_of_ne h hp hq e]

theorem sendToRoom_eq_others (s : State) (p : Nat) (m : String) (pr : Room)
    (hids : (registryIds s).Nodup) (hp : p ∈ s.players)
    (hrooms : ∀ q ∈ s.players, q ≠ p → roomIdOf s q ≠ none)
    (hpr : s.roomAt (s.heap p).Room = some pr) :
    sendToRoom p m s = Run.done
      { s with out := s.out ++
          (List.map (fun q => Event.write q (frame m)) (othersIn s p pr.Id)) } := by
  unfold sendToRoom
  rw [sendToRoomLoop_eq p m pr s.players s hpr
    (fun q hq hne => hrooms q hq (fun e => hne (by rw [e]))), filter_others_eq hids hp]

theorem look_empty_eq_others (s : State) (p : Nat) (pr : Room)
    (hids : (registryIds s).Nodup) (hp : p ∈ s.players)
    (hrooms : ∀ q ∈ s.players, q ≠ p → roomIdOf s q ≠ none)
    (hpr : s.roomAt (s.heap p).Room = some pr) :
    look p "" s = Run.done (sendMessage p
      (pr.Name ++ "\r\n" ++ pr.Description ++ "\r\n" ++ occupantLines s (othersIn s p pr.Id))
      s) := by
  have hl : len "" = 0 := by decide
  unfold look
  rw [if_pos hl, lookLoop_eq p pr s.players s "" hpr
    (fun q hq hne => hrooms q hq (fun e => hne (by rw [e]))), filter_others_eq hids hp]
  simp only [hpr]
  rfl

theorem moveTarget_of_exit (s : State) (p : Nat) (d : String) (r : Room)
    (hd : d = "north" ∨ d = "east" ∨ d = "south" ∨ d = "west")
    (hr : s.roomAt (s.heap p).Room = some r) (hpos : 0 < r.Exits.toward d) :
    moveTarget p d s = some (getRoom s (r.Exits.toward d)) := by
  rcases hd with h | h | h | h <;> subst h <;>
    simp [Exits.toward] at hpos ⊢ <;>
    simp [moveTarget, hr, hpos]

theorem othersIn_congr {s t : State} (p : Nat) (rid : Int) (hpl : t.players = s.players)
    (hr : t.rooms = s.rooms) (hh : ∀ q, q ≠ p → t.heap q = s.heap q) :
    othersIn t p rid = othersIn s p rid := by
  unfold othersIn
  rw [hpl]
  apply List.filter_congr
  intro q _
  by_cases e : q = p
  · subst e; simp
  · simp [e, roomIdOf_congr q hr (hh q e)]

theorem occupantLines_congr {s t : State} (l : List Nat)
    (hn : ∀ q, (t.heap q).Name = (s.heap q).Name) :
    occupantLines t l = occupantLines s l := by
  unfold occupantLines
  have : (fun playerList q => playerList ++ (t.heap q).Name ++ " is standing here.\r\n") =
      (fun playerList q => playerList ++ (s.heap q).Name ++ " is standing here.\r\n") := by
    funext a q; rw [hn]
  rw [this]

theorem sendToRoom_spec (s : State) (p : Nat) (m : String) (pr : Room)
    (hids : (registryIds s).Nodup) (hp : p ∈ s.players)
    (hrooms : ∀ q ∈ s.players, q ≠ p → roomIdOf s q ≠ none)
    (hpr : s.roomAt (s.heap p).Room = some pr) :
    ∃ t, sendToRoom p m s = Run.done t ∧ t.rooms = s.rooms ∧ t.players = s.players ∧
      t.heap = s.heap ∧
      t.out = s.out ++ List.map (fun q => Event.write q (frame m)) (othersIn s p pr.Id) :=
  ⟨_, sendToRoom_eq_others s p m pr hids hp hrooms hpr, rfl, rfl, rfl, rfl⟩

theorem moved_state_facts {s t : State} {p j : Nat} {r' : Room}
    (hids : (registryIds s).Nodup) (hp : p ∈ s.players)
    (hrooms : ∀ q ∈ s.players, roomIdOf s q ≠ none) (hj : s.rooms[j]? = some r')
    (hr : t.rooms = s.rooms) (hpl : t.players = s.players)
    (hh : t.heap = (s.setRoom p (some j)).heap) :
    (registryIds t).Nodup ∧ p ∈ t.players ∧
      (∀ q ∈ t.players, q ≠ p → roomIdOf t q ≠ none) ∧
      t.roomAt (t.heap p).Room = some r' ∧
      (∀ rid, othersIn t p rid = othersIn s p rid) ∧
      (∀ l, occupantLines t l = occupantLines s l) := by
  have hheap : ∀ q, q ≠ p → t.heap q = s.heap q := by
    intro q hq
    rw [hh]; simp [State.setRoom, hq]
  have hname : ∀ q, (t.heap q).Name = (s.heap q).Name := by
    intro q
    rw [hh]
    by_cases e : q = p <;> simp [State.setRoom, e]
  have hid : ∀ q, (t.heap q).Id = (s.heap q).Id := by
    intro q
    rw [hh]
    by_cases e : q = p <;> simp [State.setRoom, e]
  refine ⟨?_, hpl ▸ hp, ?_, ?_, ?_, ?_⟩
  · have : registryIds t = registryIds s := by
      unfold registryIds
      rw [hpl]
      exact List.map_congr_left (fun q _ => hid q)
    rw [this]; exact hids
  · intro q hq hqp
    rw [roomIdOf_congr q hr (hheap q hqp)]
    exact hrooms q (hpl ▸ hq)
  · rw [hh]
    simp [State.setRoom, State.roomAt, hr, hj]
  · intro rid
    exact othersIn_congr p rid hpl hr hheap
  · intro l
    exact occupantLines_congr l hname

/-! ## C8: moving through a configured exit -/

/-- C8: in a registry with pairwise distinct Ids whose players all have a room, let the
registered player `p` stand in room `r`, let `d` be a direction word whose exit from `r` is
positive and let `getRoom` resolve it to the room `r'` at a pointer `j` other than the current
one.  Then `move d` completes, and what it appends to the trace is, in this order: the notice
`<p.Name> left to the <d>.` once to every other player in `r`, the notice `<p.Name> has
arrived.` once to every other player in `r'`, and the rendering of `r'` to `p`, which is the
message of `look` with the empty argument once `p` stands in `r'`.  The room of `p` becomes
`j`; a player in neither room receives nothing; registry, room table and the other player
objects are unchanged. -/
theorem move_through_exit (s : State) (p : Nat) (d : String) (r r' : Room) (j : Nat)
    (hids : (registryIds s).Nodup) (hp : p ∈ s.players)
    (hrooms : ∀ q ∈ s.players, roomIdOf s q ≠ none)
    (hd : d = "north" ∨ d = "east" ∨ d = "south" ∨ d = "west")
    (hr : s.roomAt (s.heap p).Room = some r) (hpos : 0 < r.Exits.toward d)
    (hg : getRoom s (r.Exits.toward d) = some j) (hj : s.rooms[j]? = some r')
    (hne : (s.heap p).Room ≠ some j) :
    ∃ s', move p d s = Run.done s' ∧
      emitted s s' =
        (othersIn s p r.Id).map (fun q => Event.write q
          (frame ((s.heap p).Name ++ " left to the " ++ d ++ "."))) ++
        (othersIn s p r'.Id).map (fun q => Event.write q
          (frame ((s.heap p).Name ++ " has arrived."))) ++
        [Event.write p (frame (r'.Name ++ "\r\n" ++ r'.Description ++ "\r\n" ++
          occupantLines s (othersIn s p r'.Id)))] ∧
      look p "" (s.setRoom p (some j)) = Run.done (sendMessage p
        (r'.Name ++ "\r\n" ++ r'.Description ++ "\r\n" ++
          occupantLines s (othersIn s p r'.Id)) (s.setRoom p (some j))) ∧
      (s'.heap p).Room = some j ∧
      (∀ q, q ≠ p → sentTo q (emitted s s') =
        (if q ∈ othersIn s p r.Id
          then [frame ((s.heap p).Name ++ " left to the " ++ d ++ ".")] else []) ++
        (if q ∈ othersIn s p r'.Id then [frame ((s.heap p).Name ++ " has arrived.")] else [])) ∧
      (∀ q, q ≠ p → roomIdOf s q ≠ some r.Id → roomIdOf s q ≠ some r'.Id →
        sentTo q (emitted s s') = []) ∧
      s'.players = s.players ∧ s'.rooms = s.rooms ∧ (∀ q, q ≠ p → s'.heap q = s.heap q) := by
  have hmt := moveTarget_of_exit s p d r hd hr hpos
  rw [hg] at hmt
  have hoth : ∀ q ∈ s.players, q ≠ p → roomIdOf s q ≠ none := fun q hq _ => hrooms q hq
  have hnd : ∀ rid, (othersIn s p rid).Nodup := fun rid =>
    (nodup_players_of_ids hids).filter _
  -- the departure notice
  obtain ⟨s1, e1, r1, p1, hp1, o1⟩ :=
    sendToRoom_spec s p ((s.heap p).Name ++ " left to the " ++ d ++ ".") r hids hp hoth hr
  -- the state once the room of `p` is updated
  have r2 : (s1.setRoom p (some j)).rooms = s.rooms := r1
  have p2 : (s1.setRoom p (some j)).players = s.players := p1
  have h2 : (s1.setRoom p (some j)).heap = (s.setRoom p (some j)).heap := by
    simp [State.setRoom, hp1]
  have n2 : ((s1.setRoom p (some j)).heap p).Name = (s.heap p).Name := by
    simp [State.setRoom, hp1]
  obtain ⟨a1, a2, a3, a4, a5, _⟩ := moved_state_facts hids hp hrooms hj r2 p2 h2
  obtain ⟨s3, e3, r3, p3, hp3, o3⟩ :=
    sendToRoom_spec (s1.setRoom p (some j)) p
      (((s1.setRoom p (some j)).heap p).Name ++ " has arrived.") r' a1 a2 a3 a4
  rw [a5, n2] at o3
  -- the rendering
  obtain ⟨b1, b2, b3, b4, b5, b6⟩ :=
    moved_state_facts hids hp hrooms hj (r3.trans r2) (p3.trans p2) (hp3.trans h2)
  have e4 := look_empty_eq_others s3 p r' b1 b2 b3 b4
  rw [b5, b6] at e4
  obtain ⟨c1, c2, c3, c4, c5, c6⟩ :=
    moved_state_facts (t := s.setRoom p (some j)) hids hp hrooms hj rfl rfl rfl
  have e5 := look_empty_eq_others (s.setRoom p (some j)) p r' c1 c2 c3 c4
  rw [c5, c6] at e5
  have hmove : move p d s = Run.done (sendMessage p
      (r'.Name ++ "\r\n" ++ r'.Description ++ "\r\n" ++ occupantLines s (othersIn s p r'.Id))
      s3) := by
    unfold move
    simp only [hmt]
    rw [if_pos hne, e1]
    simp only [Run.andThen]
    rw [e3]
    simp only [e4]
  have hout : (sendMessage p
      (r'.Name ++ "\r\n" ++ r'.Description ++ "\r\n" ++ occupantLines s (othersIn s p r'.Id))
      s3).out = s.out ++
      ((othersIn s p r.Id).map (fun q => Event.write q
          (frame ((s.heap p).Name ++ " left to the " ++ d ++ "."))) ++
        (othersIn s p r'.Id).map (fun q => Event.write q
          (frame ((s.heap p).Name ++ " has arrived."))) ++
        [Event.write p (frame (r'.Name ++ "\r\n" ++ r'.Description ++ "\r\n" ++
          occupantLines s (othersIn s p r'.Id)))]) := by
    have o2 : (s1.setRoom p (some j)).out = s1.out := rfl
    rw [sendMessage_out, o3, o2, o1]
    simp
  have hem := emitted_of_out_eq hout
  have hsent : ∀ q, q ≠ p → sentTo q (emitted s (sendMessage p
      (r'.Name ++ "\r\n" ++ r'.Description ++ "\r\n" ++ occupantLines s (othersIn s p r'.Id))
      s3)) =
      (if q ∈ othersIn s p r.Id
          then [frame ((s.heap p).Name ++ " left to the " ++ d ++ ".")] else []) ++
        (if q ∈ othersIn s p r'.Id then [frame ((s.heap p).Name ++ " has arrived.")] else []) := by
    intro q hq
    rw [hem, sentTo_append, sentTo_append]
    have e3 : sentTo q [Event.write p (frame (r'.Name ++ "\r\n" ++ r'.Description ++ "\r\n" ++
          occupantLines s (othersIn s p r'.Id)))] = [] := by
      simp [sentTo, Ne.symm hq]
    rw [e3, List.append_nil]
    congr 1
    · by_cases hm : q ∈ othersIn s p r.Id
      · rw [if_pos hm, sentTo_writes_of_mem q _ _ (hnd _) hm]
      · rw [if_neg hm, sentTo_writes_of_not_mem q _ _ hm]
    · by_cases hm : q ∈ othersIn s p r'.Id
      · rw [if_pos hm, sentTo_writes_of_mem q _ _ (hnd _) hm]
      · rw [if_neg hm, sentTo_writes_of_not_mem q _ _ hm]
  have hheap : (sendMessage p
      (r'.Name ++ "\r\n" ++ r'.Description ++ "\r\n" ++ occupantLines s (othersIn s p r'.Id))
      s3).heap = (s.setRoom p (some j)).heap := hp3.trans h2
  refine ⟨_, hmove, hem, e5, ?_, hsent, ?_, p3.trans p2, r3.trans r2, ?_⟩
  · rw [hheap]; simp [State.setRoom]
  · intro q hq n1 n2
    rw [hsent q hq]
    have m1 : q ∉ othersIn s p r.Id := fun h => n1 (by
      have := (List.mem_filter.mp h).2
      simpa [hq] using this)
    have m2 : q ∉ othersIn s p r'.Id := fun h => n2 (by
      have := (List.mem_filter.mp h).2
      simpa [hq] using this)
    rw [if_neg m1, if_neg m2]
    rfl
  · intro q hq
    rw [hheap]; simp [State.setRoom, hq]

theorem move_through_exit_witness :
    ∃ s', move 0 "west" duoState = Run.done s' ∧
      (s'.heap 0).Room = some 1 ∧
      sentTo 1 (emitted duoState s') = [frame ("alice" ++ " left to the " ++ "west" ++ ".")] ∧
      sentTo 0 (emitted duoState s') =
        [frame ("A dark room" ++ "\r\n" ++ "You are standing in a small, dark room. There is a glow coming from an open door to the east." ++ "\r\n")] :=
  have h := move_through_exit duoState 0 "west" (worldRooms.get ⟨0, by decide⟩)
    (worldRooms.get ⟨1, by decide⟩) 1 (by decide) (by decide) (by decide)
    (Or.inr (Or.inr (Or.inr rfl))) (by rfl) (by decide) (by decide) (by rfl) (by decide)
  Exists.elim h fun s' hs =>
    ⟨s', hs.1, hs.2.2.2.1,
      (hs.2.2.2.2.1 1 (by decide)).trans (by decide),
      (congrArg (sentTo 0) hs.2.1).trans (by rfl)⟩

/-! ## C11: `look` with a keyword -/

theorem len_eq_zero_iff (s : String) : len s = 0 ↔ s = "" := by
  cases s with
  | mk cs =>
    cases cs with
    | nil => exact ⟨fun _ => rfl, fun _ => rfl⟩
    | cons c rest =>
      constructor
      · intro h
        have hpos := Char.utf8Size_pos c
        have : String.utf8ByteSize.go rest + c.utf8Size = 0 := h
        omega
      · intro h
        exact absurd (congrArg String.data h) (by simp)

theorem len_pos_iff (s : String) : len s > 0 ↔ s ≠ "" := by
  constructor
  · intro h e
    have := (len_eq_zero_iff s).mpr e
    omega
  · intro h
    exact Nat.pos_of_ne_zero (fun e => h ((len_eq_zero_iff s).mp e))

theorem look_keyword_eq (s : State) (p : Nat) (k : String) (r : Room)
    (hr : s.roomAt (s.heap p).Room = some r) (hk : k ≠ "") :
    look p k s = Run.done (sendMessage p
      (if mapGet r.ExtraDescriptions k ≠ "" then mapGet r.ExtraDescriptions k
        else nothingToLookAt k) s) := by
  have hl : ¬ len k = 0 := fun h => hk ((len_eq_zero_iff k).mp h)
  unfold look
  rw [if_neg hl]
  simp only [hr]
  by_cases hm : mapGet r.ExtraDescriptions k = ""
  · have : ¬ len (mapGet r.ExtraDescriptions k) > 0 := by
      rw [len_pos_iff]; simpa using hm
    rw [if_neg this, if_neg (by simpa using hm)]
    rfl
  · rw [if_pos ((len_pos_iff _).mpr hm), if_pos hm]

/-- C11 (as amended): for a player `p` standing in room `r` and a non-empty keyword `k`,
`look k` completes after exactly one write, to `p` and to nobody else: the text registered
under `k` in the extra descriptions of `r` when there is one and it is not empty, and
`There is nothing by the name of '<k>' to look at here.` when no text is registered under `k`
or the registered text is empty. -/
theorem look_keyword (s : State) (p : Nat) (k : String) (r : Room)
    (hr : s.roomAt (s.heap p).Room = some r) (hk : k ≠ "") :
    (∃ m, look p k s = Run.done (sendMessage p m s) ∧
      emitted s (look p k s).state = [Event.write p (frame m)] ∧
      (∀ q, q ≠ p → sentTo q (emitted s (look p k s).state) = [])) ∧
    (∀ kv, r.ExtraDescriptions.find? (fun kv => kv.1 = k) = some kv → kv.2 ≠ "" →
      look p k s = Run.done (sendMessage p kv.2 s)) ∧
    (∀ kv, r.ExtraDescriptions.find? (fun kv => kv.1 = k) = some kv → kv.2 = "" →
      look p k s = Run.done (sendMessage p (nothingToLookAt k) s)) ∧
    (r.ExtraDescriptions.find? (fun kv => kv.1 = k) = none →
      look p k s = Run.done (sendMessage p (nothingToLookAt k) s)) := by
  have h := look_keyword_eq s p k r hr hk
  refine ⟨⟨_, h, ?_, ?_⟩, ?_, ?_, ?_⟩
  · rw [h]
    exact emitted_of_out_eq (sendMessage_out _ _ _)
  · intro q hq
    rw [h]
    have := emitted_of_out_eq (sendMessage_out p
      (if mapGet r.ExtraDescriptions k ≠ "" then mapGet r.ExtraDescriptions k
        else nothingToLookAt k) s)
    simp only [Run.state]
    rw [this]
    simp [sentTo, Ne.symm hq]
  · intro kv hf hne
    have hg : mapGet r.ExtraDescriptions k = kv.2 := by simp [mapGet, hf]
    rw [h, hg, if_pos hne]
  · intro kv hf he
    have hg : mapGet r.ExtraDescriptions k = "" := by simp [mapGet, hf, he]
    rw [h, hg, if_neg (by simp)]
  · intro hf
    have hg : mapGet r.ExtraDescriptions k = "" := by simp [mapGet, hf]
    rw [h, hg, if_neg (by simp)]

theorem look_keyword_witness :
    look 0 "door" duoState = Run.done (sendMessage 0
      "You see a small dark room on the other side of the door." duoState) ∧
    look 0 "window" duoState = Run.done (sendMessage 0 (nothingToLookAt "window") duoState) :=
  have h := look_keyword duoState 0 "door" (worldRooms.get ⟨0, by decide⟩) (by rfl) (by decide)
  have h' := look_keyword duoState 0 "window" (worldRooms.get ⟨0, by decide⟩) (by rfl)
    (by decide)
  ⟨h.2.1 ("door", "You see a small dark room on the other side of the door.") (by decide)
      (by decide),
    h'.2.2.2 (by decide)⟩

/-- C11 (counterexample to the claim as written): in `blankSignState` the room of the player has
an extra description registered under `sign`, with the empty text; `look sign` does not send
that text but the message that there is nothing by that name. -/
theorem look_keyword_empty_text_counterexample :
    blankSignState.roomAt (blankSignState.heap 0).Room = blankSignRooms.head? ∧
    (blankSignRooms.head?.map fun r => r.ExtraDescriptions.find? (fun kv => kv.1 = "sign")) =
      some (some ("sign", "")) ∧
    emitted blankSignState (look 0 "sign" blankSignState).state =
      [Event.write 0 (frame (nothingToLookAt "sign"))] ∧
    emitted blankSignState (look 0 "sign" blankSignState).state ≠ [Event.write 0 (frame "")] := by
  refine ⟨by decide, by decide, by decide, by decide⟩

/-! ## C12: `look` without a keyword -/

theorem foldl_append_eq (l : List String) (init : String) :
    l.foldl (fun acc x => acc ++ x) init = init ++ l.foldl (fun acc x => acc ++ x) "" := by
  induction l generalizing init with
  | nil => simp
  | cons a rest ih =>
    simp only [List.foldl_cons]
    rw [ih (init ++ a), ih ("" ++ a)]
    simp [String.append_assoc]

theorem occupantLines_eq_join (s : State) (l : List Nat) :
    occupantLines s l =
      String.join (l.map fun q => (s.heap q).Name ++ " is standing here.\r\n") := by
  unfold occupantLines String.join
  rw [List.foldl_map]
  congr 1
  funext acc q
  rw [String.append_assoc]

/-- C12: in a registry with pairwise distinct Ids whose players all have a room, `look` with the
empty argument by a registered player `p` standing in room `r` completes after exactly one
write, to `p`: the name of `r`, `\r\n`, its description, `\r\n`, and then one line
`<q.Name> is standing here.\r\n` for each other registered player `q` whose current room has
the Id of `r`, in registry order.  When there is no such player the message is just the name and
the description. -/
theorem look_empty_renders_room (s : State) (p : Nat) (r : Room)
    (hids : (registryIds s).Nodup) (hp : p ∈ s.players)
    (hrooms : ∀ q ∈ s.players, roomIdOf s q ≠ none)
    (hr : s.roomAt (s.heap p).Room = some r) :
    look p "" s = Run.done (sendMessage p
      (r.Name ++ "\r\n" ++ r.Description ++ "\r\n" ++
        String.join ((s.players.filter fun q => q ≠ p ∧ roomIdOf s q = some r.Id).map
          fun q => (s.heap q).Name ++ " is standing here.\r\n")) s) ∧
    emitted s (look p "" s).state = [Event.write p (frame
      (r.Name ++ "\r\n" ++ r.Description ++ "\r\n" ++
        String.join ((s.players.filter fun q => q ≠ p ∧ roomIdOf s q = some r.Id).map
          fun q => (s.heap q).Name ++ " is standing here.\r\n")))] ∧
    ((∀ q ∈ s.players, q ≠ p → roomIdOf s q ≠ some r.Id) →
      look p "" s = Run.done (sendMessage p (r.Name ++ "\r\n" ++ r.Description ++ "\r\n") s)) := by
  have h := look_empty_eq_others s p r hids hp (fun q hq _ => hrooms q hq) hr
  rw [occupantLines_eq_join] at h
  have h' : look p "" s = Run.done (sendMessage p
      (r.Name ++ "\r\n" ++ r.Description ++ "\r\n" ++
        String.join ((s.players.filter fun q => q ≠ p ∧ roomIdOf s q = some r.Id).map
          fun q => (s.heap q).Name ++ " is standing here.\r\n")) s) := h
  refine ⟨h', ?_, ?_⟩
  · rw [h']
    exact emitted_of_out_eq (sendMessage_out _ _ _)
  · intro halone
    have hnil : (s.players.filter fun q => q ≠ p ∧ roomIdOf s q = some r.Id) = [] := by
      rw [List.filter_eq_nil_iff]
      intro q hq
      by_cases e : q = p
      · simp [e]
      · simp [e, halone q hq e]
    rw [h', hnil]
    simp [String.join]

theorem look_empty_renders_room_witness :
    look 0 "" duoState = Run.done (sendMessage 0
      ("An empty room" ++ "\r\n" ++ "You are standing in a nice big empty room. There is nothing on the walls, nothing on the floor, and nothing on the ceiling. There is an open door to the west." ++ "\r\n" ++ "bob is standing here.\r\n") duoState) :=
  (look_empty_renders_room duoState 0 (worldRooms.get ⟨0, by decide⟩) (by decide) (by decide)
    (by decide) (by rfl)).1.trans (by rfl)

/-! ## C13: the argument of `chat` and `look` -/

theorem fields_after_word (w : String) (rest : String)
    (hw : ∀ cur, fieldsGo cur (w.data ++ ' ' :: rest.data) =
      String.mk (cur ++ w.data) :: fieldsGo [] rest.data) :
    Fields (w ++ " " ++ rest) = w :: Fields rest := by
  have hd : (w ++ " " ++ rest).data = w.data ++ ' ' :: rest.data := by
    simp [String.data_append]
  unfold Fields
  rw [hd, hw []]
  rfl

theorem trimPrefix_word (w rest : String) : TrimPrefix (w ++ " " ++ rest) (w ++ " ") = rest := by
  have hd : (w ++ " " ++ rest).data = (w ++ " ").data ++ rest.data := by
    simp [String.data_append]
  unfold TrimPrefix
  rw [hd]
  have hp : (w ++ " ").data.isPrefixOf ((w ++ " ").data ++ rest.data) = true := by
    rw [List.isPrefixOf_iff_prefix]
    exact List.prefix_append _ _
  rw [if_pos hp, List.drop_left]

/-- C13: for every string `r`, `handleInput` on the line `chat`, one space, `r` runs `chat r`,
and on the line `look`, one space, `r` runs `look r`: the argument is the rest of the line after
the command word and its single separating space, unmodified. -/
theorem handleInput_chat_look_argument (p : Nat) (r : String) (s : State) :
    handleInput p ("chat" ++ " " ++ r) s = Run.done (chat p r s) ∧
    handleInput p ("look" ++ " " ++ r) s = look p r s := by
  have hc : Fields ("chat" ++ " " ++ r) = "chat" :: Fields r :=
    fields_after_word "chat" r (fun cur => by simp [fieldsGo, isSpace])
  have hl : Fields ("look" ++ " " ++ r) = "look" :: Fields r :=
    fields_after_word "look" r (fun cur => by simp [fieldsGo, isSpace])
  constructor
  · unfold handleInput
    rw [hc]
    simp only [trimPrefix_word]
    simp
  · unfold handleInput
    rw [hl]
    simp only [trimPrefix_word]
    simp

/-! ## C14: `look` reads, and only reads -/

theorem roomAt_congr {s t : State} (hr : t.rooms = s.rooms) (ptr : Option Nat) :
    t.roomAt ptr = s.roomAt ptr := by
  unfold State.roomAt
  rw [hr]

theorem lookLoop_congr {s t : State} (p : Nat) (hh : t.heap = s.heap) (hr : t.rooms = s.rooms)
    (l : List Nat) (acc : String) : lookLoop t p l acc = lookLoop s p l acc := by
  induction l generalizing acc with
  | nil => simp [lookLoop]
  | cons o rest ih =>
    unfold lookLoop
    simp only [hh, roomAt_congr hr, ih]

theorem look_determined (s : State) (p : Nat) (arg : String) :
    ∃ om : Option String, ∀ t : State, t.heap = s.heap → t.rooms = s.rooms →
      t.players = s.players →
      look p arg t =
        match om with
        | none => Run.panic t
        | some m => Run.done (sendMessage p m t) := by
  by_cases h0 : len arg = 0
  · cases hl : lookLoop s p s.players "" with
    | none =>
      refine ⟨none, fun t hh hr hp => ?_⟩
      unfold look
      rw [if_pos h0, hp, lookLoop_congr p hh hr, hl]
    | some playerList =>
      cases hroom : s.roomAt (s.heap p).Room with
      | none =>
        refine ⟨none, fun t hh hr hp => ?_⟩
        unfold look
        rw [if_pos h0, hp, lookLoop_congr p hh hr, hl]
        simp only [hh, roomAt_congr hr, hroom]
      | some r =>
        refine ⟨some (r.Name ++ "\r\n" ++ r.Description ++ "\r\n" ++ playerList),
          fun t hh hr hp => ?_⟩
        unfold look
        rw [if_pos h0, hp, lookLoop_congr p hh hr, hl]
        simp only [hh, roomAt_congr hr, hroom]
  · cases hroom : s.roomAt (s.heap p).Room with
    | none =>
      refine ⟨none, fun t hh hr hp => ?_⟩
      unfold look
      rw [if_neg h0]
      simp only [hh, roomAt_congr hr, hroom]
    | some r =>
      by_cases hm : len (mapGet r.ExtraDescriptions arg) > 0
      · refine ⟨some (mapGet r.ExtraDescriptions arg), fun t hh hr hp => ?_⟩
        unfold look
        rw [if_neg h0]
        simp only [hh, roomAt_congr hr, hroom]
        rw [if_pos hm]
      · refine ⟨some ("There is nothing by the name of '" ++ arg ++ "' to look at here."),
          fun t hh hr hp => ?_⟩
        unfold look
        rw [if_neg h0]
        simp only [hh, roomAt_congr hr, hroom]
        rw [if_neg hm]

theorem look_completes (s : State) (p : Nat) (arg : String)
    (hrooms : ∀ q ∈ s.players, roomIdOf s q ≠ none) (hp : roomIdOf s p ≠ none) :
    ∃ m, look p arg s = Run.done (sendMessage p m s) := by
  cases hroom : s.roomAt (s.heap p).Room with
  | none => simp [roomIdOf, hroom] at hp
  | some r =>
    by_cases h0 : len arg = 0
    · have hl := lookLoop_eq p r s.players s "" hroom (fun q hq _ => hrooms q hq)
      unfold look
      rw [if_pos h0, hl]
      simp only [hroom]
      exact ⟨_, rfl⟩
    · unfold look
      rw [if_neg h0]
      simp only [hroom]
      split
      · exact ⟨_, rfl⟩
      · exact ⟨_, rfl⟩

/-- C14: `look a` by `p` never changes the registry, the player objects (Ids, names, rooms) or
the room table.  Either it panics on a nil room without writing anything, or it writes one
message `m` to `p`, and a second `look a` right after it writes the same `m` again.  When every
registered player and `p` have a room, it does complete. -/
theorem look_no_side_effect_idempotent (p : Nat) (a : String) (s : State) :
    ((look p a s).state.players = s.players ∧ (look p a s).state.heap = s.heap ∧
      (look p a s).state.rooms = s.rooms) ∧
    (look p a s = Run.panic s ∨
      ∃ m, look p a s = Run.done (sendMessage p m s) ∧
        (look p a s).andThen (look p a) = Run.done (sendMessage p m (sendMessage p m s)) ∧
        emitted s ((look p a s).andThen (look p a)).state =
          [Event.write p (frame m), Event.write p (frame m)]) ∧
    ((∀ q ∈ s.players, roomIdOf s q ≠ none) → roomIdOf s p ≠ none →
      ∃ m, look p a s = Run.done (sendMessage p m s)) := by
  refine ⟨?_, ?_, look_completes s p a⟩
  · rcases look_cases p a s with h | ⟨m, h⟩ <;> rw [h] <;> exact ⟨rfl, rfl, rfl⟩
  · obtain ⟨om, hom⟩ := look_determined s p a
    cases om with
    | none => exact Or.inl (hom s rfl rfl rfl)
    | some m =>
      have h1 : look p a s = Run.done (sendMessage p m s) := hom s rfl rfl rfl
      have h2 : look p a (sendMessage p m s) = Run.done (sendMessage p m (sendMessage p m s)) :=
        hom (sendMessage p m s) rfl rfl rfl
      refine Or.inr ⟨m, h1, ?_, ?_⟩
      · rw [h1]; exact h2
      · rw [h1]
        have : (Run.andThen (Run.done (sendMessage p m s)) (look p a)).state =
            sendMessage p m (sendMessage p m s) := by
          show (look p a (sendMessage p m s)).state = _
          rw [h2]; rfl
        rw [this]
        apply emitted_of_out_eq
        simp [sendMessage_out]

theorem look_no_side_effect_idempotent_witness :
    ∃ m, look 0 "door" duoState = Run.done (sendMessage 0 m duoState) ∧
      (look 0 "door" duoState).andThen (look 0 "door") =
        Run.done (sendMessage 0 m (sendMessage 0 m duoState)) :=
  have h := look_no_side_effect_idempotent 0 "door" duoState
  have hd := h.2.2 (by decide) (by decide)
  Exists.elim hd fun m hm =>
    Or.elim h.2.1
      (fun hpanic => absurd (hpanic.symm.trans hm) (by simp))
      (fun hex => Exists.elim hex fun m' hm' => ⟨m', hm'.1, hm'.2.1⟩)

/-! ## C15: `getRoom` -/

theorem getRoomFrom_eq_none (id : Int) (l : List Room) (i : Nat) :
    getRoomFrom id l i = none ↔ ∀ r ∈ l, r.Id ≠ id := by
  induction l generalizing i with
  | nil => simp [getRoomFrom]
  | cons room rest ih =>
    unfold getRoomFrom
    by_cases h : room.Id = id
    · simp [h]
    · simp [h, ih]

theorem getRoomFrom_eq_some (id : Int) (l : List Room) (i j : Nat)
    (h : getRoomFrom id l i = some j) :
    ∃ k, j = i + k ∧ ∃ r, l[k]? = some r ∧ r.Id = id ∧
      ∀ k', k' < k → ∀ r0, l[k']? = some r0 → r0.Id ≠ id := by
  induction l generalizing i with
  | nil => simp [getRoomFrom] at h
  | cons room rest ih =>
    unfold getRoomFrom at h
    by_cases hid : room.Id = id
    · rw [if_pos hid] at h
      refine ⟨0, ?_, room, by simp, hid, ?_⟩
      · simpa using (Option.some.inj h).symm
      · intro k' hk'
        omega
    · rw [if_neg hid] at h
      obtain ⟨k, hj, r, hr, hrid, hfirst⟩ := ih (i + 1) h
      refine ⟨k + 1, by omega, r, by simpa using hr, hrid, ?_⟩
      intro k' hk' r0 hr0
      cases k' with
      | zero =>
        have : room = r0 := by simpa using hr0
        rw [← this]; exact hid
      | succ n =>
        exact hfirst n (by omega) r0 (by simpa using hr0)

/-- C15: for every room table and identifier, `getRoom` returns nil exactly when no room of
the table has that Id; when the table has such a room it returns a pointer, and the room it
points to has that Id and is the first such room of the table. -/
theorem getRoom_finds_first (s : State) (id : Int) :
    (getRoom s id = none ↔ ∀ r ∈ s.rooms, r.Id ≠ id) ∧
    ((∃ r ∈ s.rooms, r.Id = id) → ∃ j, getRoom s id = some j) ∧
    (∀ j, getRoom s id = some j →
      ∃ r, s.rooms[j]? = some r ∧ r.Id = id ∧
        ∀ i, i < j → ∀ r0, s.rooms[i]? = some r0 → r0.Id ≠ id) := by
  refine ⟨getRoomFrom_eq_none id s.rooms 0, ?_, ?_⟩
  · rintro ⟨r, hr, hid⟩
    cases hg : getRoom s id with
    | none => exact absurd hid ((getRoomFrom_eq_none id s.rooms 0).mp hg r hr)
    | some j => exact ⟨j, rfl⟩
  · intro j hj
    obtain ⟨k, hk, r, hr, hrid, hfirst⟩ := getRoomFrom_eq_some id s.rooms 0 j hj
    have : j = k := by omega
    subst this
    exact ⟨r, hr, hrid, hfirst⟩

theorem getRoom_finds_first_witness :
    getRoom initial 2 = some 1 ∧ getRoom initial 3 = none ∧
    ∃ r, initial.rooms[1]? = some r ∧ r.Id = 2 ∧
      ∀ i, i < 1 → ∀ r0, initial.rooms[i]? = some r0 → r0.Id ≠ 2 :=
  have h2 := getRoom_finds_first initial 2
  have h3 := getRoom_finds_first initial 3
  have e2 : getRoom initial 2 = some 1 := by decide
  ⟨e2, h3.1.mpr (by decide), h2.2.2 1 e2⟩

/-! ## C16: the world of `buildTheWorld` -/

/-- C16: in the room table that `buildTheWorld` constructs, the Ids are pairwise distinct, and
for every room each of the four exits that is not zero is resolved by `getRoom` to a room of the
table. -/
theorem buildTheWorld_consistent :
    initial.rooms = (buildTheWorld State.empty).rooms ∧
    (initial.rooms.map Room.Id).Nodup ∧
    ∀ r ∈ initial.rooms,
      ∀ e ∈ [r.Exits.North, r.Exits.East, r.Exits.South, r.Exits.West], e ≠ 0 →
        (initial.roomAt (getRoom initial e)).isSome = true := by
  refine ⟨rfl, by decide, by decide⟩

/-! ## C19: what `move` leaves alone -/

theorem sendToRoom_state (p : Nat) (m : String) (s : State) :
    (sendToRoom p m s).state.players = s.players ∧ (sendToRoom p m s).state.heap = s.heap ∧
      (sendToRoom p m s).state.rooms = s.rooms := by
  obtain ⟨l', _, he⟩ := sendToRoomLoop_trace p m s.players s
  unfold sendToRoom
  rw [he]
  exact ⟨rfl, rfl, rfl⟩

theorem look_state (p : Nat) (arg : String) (s : State) :
    (look p arg s).state.players = s.players ∧ (look p arg s).state.heap = s.heap ∧
      (look p arg s).state.rooms = s.rooms := by
  rcases look_cases p arg s with h | ⟨m, h⟩ <;> rw [h] <;> exact ⟨rfl, rfl, rfl⟩

theorem move_state (p : Nat) (d : String) (s : State) :
    (move p d s).state.players = s.players ∧ (move p d s).state.rooms = s.rooms ∧
      ((move p d s).state.heap = s.heap ∨
        ∃ nr, (move p d s).state.heap = (s.setRoom p nr).heap) := by
  unfold move
  cases hmt : moveTarget p d s with
  | none => exact ⟨rfl, rfl, Or.inl rfl⟩
  | some newRoom =>
    simp only []
    by_cases hne : (s.heap p).Room ≠ newRoom
    · rw [if_pos hne]
      obtain ⟨a1, a2, a3⟩ :=
        sendToRoom_state p ((s.heap p).Name ++ " left to the " ++ d ++ ".") s
      cases h1 : sendToRoom p ((s.heap p).Name ++ " left to the " ++ d ++ ".") s with
      | panic s1 =>
        rw [h1] at a1 a2 a3
        exact ⟨a1, a3, Or.inl a2⟩
      | done s1 =>
        rw [h1] at a1 a2 a3
        simp only [Run.andThen]
        have a1' : s1.players = s.players := a1
        have a2' : s1.heap = s.heap := a2
        have a3' : s1.rooms = s.rooms := a3
        have hh : (s1.setRoom p newRoom).heap = (s.setRoom p newRoom).heap := by
          simp [State.setRoom, a2']
        obtain ⟨b1, b2, b3⟩ := sendToRoom_state p
          (((s1.setRoom p newRoom).heap p).Name ++ " has arrived.") (s1.setRoom p newRoom)
        cases h3 : sendToRoom p (((s1.setRoom p newRoom).heap p).Name ++ " has arrived.")
            (s1.setRoom p newRoom) with
        | panic s3 =>
          rw [h3] at b1 b2 b3
          exact ⟨b1.trans a1', b3.trans a3', Or.inr ⟨newRoom, b2.trans hh⟩⟩
        | done s3 =>
          rw [h3] at b1 b2 b3
          obtain ⟨c1, c2, c3⟩ := look_state p "" s3
          exact ⟨c1.trans (b1.trans a1'), c3.trans (b3.trans a3'),
            Or.inr ⟨newRoom, c2.trans (b2.trans hh)⟩⟩
    · rw [if_neg hne]
      exact ⟨rfl, rfl, Or.inl rfl⟩

theorem move_completes_in_duo : ∃ t, move 0 "west" duoState = Run.done t := by
  cases h : move 0 "west" duoState with
  | done t => exact ⟨t, rfl⟩
  | panic t =>
    have : (move 0 "west" duoState).panicked = false := by decide
    rw [h] at this
    exact absurd this (by simp [Run.panicked])

/-- C19: whatever the registry, the player `p` and the direction string `d`, the state in which
`move d` ends (in particular the state it returns when it completes) has the same registry, in
the same order, the same room table, the same Id and Name for every player object, and the same
player object, current room included, for every player other than `p`. -/
theorem move_changes_only_own_room (s : State) (p : Nat) (d : String) :
    (move p d s).state.players = s.players ∧
    (move p d s).state.rooms = s.rooms ∧
    (∀ q, ((move p d s).state.heap q).Id = (s.heap q).Id ∧
      ((move p d s).state.heap q).Name = (s.heap q).Name) ∧
    (∀ q, q ≠ p → (move p d s).state.heap q = s.heap q) ∧
    (∀ t, move p d s = Run.done t →
      t.players = s.players ∧ t.rooms = s.rooms ∧
      (∀ q, (t.heap q).Id = (s.heap q).Id ∧ (t.heap q).Name = (s.heap q).Name) ∧
      (∀ q, q ≠ p → (t.heap q).Room = (s.heap q).Room)) := by
  have key : (∀ q, ((move p d s).state.heap q).Id = (s.heap q).Id ∧
      ((move p d s).state.heap q).Name = (s.heap q).Name) ∧
      (∀ q, q ≠ p → (move p d s).state.heap q = s.heap q) := by
    rcases (move_state p d s).2.2 with h | ⟨nr, h⟩
    · rw [h]
      exact ⟨fun q => ⟨rfl, rfl⟩, fun q _ => rfl⟩
    · rw [h]
      constructor
      · intro q
        by_cases e : q = p <;> simp [State.setRoom, e]
      · intro q hq
        simp [State.setRoom, hq]
  refine ⟨(move_state p d s).1, (move_state p d s).2.1, key.1, key.2, ?_⟩
  intro t ht
  have hs : (move p d s).state = t := by rw [ht]; rfl
  rw [← hs]
  exact ⟨(move_state p d s).1, (move_state p d s).2.1, key.1,
    fun q hq => by rw [key.2 q hq]⟩

theorem move_changes_only_own_room_witness :
    ∃ t, move 0 "west" duoState = Run.done t ∧ t.players = duoState.players ∧
      t.rooms = duoState.rooms ∧ (t.heap 1).Room = (duoState.heap 1).Room ∧
      (t.heap 0).Name = "alice" :=
  have h := move_changes_only_own_room duoState 0 "west"
  have hc := move_completes_in_duo
  Exists.elim hc fun t ht =>
    have ht' := h.2.2.2.2 t ht
    ⟨t, ht, ht'.1, ht'.2.1, ht'.2.2.2 1 (by decide), (ht'.2.2.1 0).2.trans (by decide)⟩

/-! ## C18: every player keeps a room of the world -/

theorem sendToRoom_completes (s : State) (p : Nat) (m : String) (pr : Room)
    (hrooms : ∀ q ∈ s.players, q ≠ p → roomIdOf s q ≠ none)
    (hpr : s.roomAt (s.heap p).Room = some pr) :
    ∃ t, sendToRoom p m s = Run.done t ∧ t.rooms = s.rooms ∧ t.players = s.players ∧
      t.heap = s.heap :=
  ⟨_, sendToRoomLoop_eq p m pr s.players s hpr
    (fun q hq hne => hrooms q hq (fun e => hne (by rw [e]))), rfl, rfl, rfl⟩

theorem moveTarget_cases (s : State) (p : Nat) (d : String) (r : Room)
    (hr : s.roomAt (s.heap p).Room = some r) :
    moveTarget p d s = some (s.heap p).Room ∨
      ∃ e ∈ [r.Exits.North, r.Exits.East, r.Exits.South, r.Exits.West],
        0 < e ∧ moveTarget p d s = some (getRoom s e) := by
  unfold moveTarget
  simp only [hr]
  split_ifs <;> simp_all

theorem worldRooms_exits_resolve :
    ∀ r ∈ worldRooms, ∀ e ∈ [r.Exits.North, r.Exits.East, r.Exits.South, r.Exits.West],
      0 < e → ∃ j, getRoomFrom e worldRooms 0 = some j ∧ j < worldRooms.length := by
  decide

theorem roomAt_mem {s : State} {ptr : Option Nat} {r : Room} (h : s.roomAt ptr = some r) :
    r ∈ s.rooms := by
  cases ptr with
  | none => simp [State.roomAt] at h
  | some i =>
    exact List.getElem?_mem h

theorem move_completes (s : State) (p : Nat) (d : String) (r r' : Room) (nr : Option Nat)
    (hrooms : ∀ q ∈ s.players, roomIdOf s q ≠ none)
    (hr : s.roomAt (s.heap p).Room = some r)
    (hmt : moveTarget p d s = some nr) (hnr : s.roomAt nr = some r') :
    ∃ t, move p d s = Run.done t ∧ t.players = s.players ∧ t.rooms = s.rooms ∧
      (t.heap = s.heap ∨ t.heap = (s.setRoom p nr).heap) := by
  unfold move
  simp only [hmt]
  by_cases hne : (s.heap p).Room ≠ nr
  · rw [if_pos hne]
    obtain ⟨s1, e1, r1, p1, h1⟩ := sendToRoom_completes s p
      ((s.heap p).Name ++ " left to the " ++ d ++ ".") r (fun q hq _ => hrooms q hq) hr
    rw [e1]
    simp only [Run.andThen]
    have hh : (s1.setRoom p nr).heap = (s.setRoom p nr).heap := by
      simp [State.setRoom, h1]
    have r2 : (s1.setRoom p nr).rooms = s.rooms := r1
    have p2 : (s1.setRoom p nr).players = s.players := p1
    have hpr2 : (s1.setRoom p nr).roomAt ((s1.setRoom p nr).heap p).Room = some r' := by
      rw [roomAt_congr r2, hh]
      simpa [State.setRoom] using hnr
    have hother : ∀ (u : State), u.rooms = s.rooms → u.heap = (s.setRoom p nr).heap →
        ∀ q, q ≠ p → roomIdOf u q = roomIdOf s q := by
      intro u hur huh q hq
      apply roomIdOf_congr q hur
      rw [huh]
      simp [State.setRoom, hq]
    obtain ⟨s3, e3, r3, p3, h3⟩ := sendToRoom_completes (s1.setRoom p nr) p
      (((s1.setRoom p nr).heap p).Name ++ " has arrived.") r'
      (fun q hq hqp => by
        rw [hother _ r2 hh q hqp]
        exact hrooms q (p2 ▸ hq)) hpr2
    rw [e3]
    simp only []
    have hpr3 : s3.roomAt (s3.heap p).Room = some r' := by
      rw [roomAt_congr r3, h3]; exact hpr2
    have hroom3 : ∀ q ∈ s3.players, roomIdOf s3 q ≠ none := by
      intro q hq
      by_cases e : q = p
      · subst e
        simp [roomIdOf, hpr3]
      · rw [hother s3 (r3.trans r2) (h3.trans hh) q e]
        exact hrooms q ((p3.trans p2) ▸ hq)
    obtain ⟨m, e4⟩ := look_completes s3 p "" hroom3 (by simp [roomIdOf, hpr3])
    rw [e4]
    exact ⟨_, rfl, p3.trans p2, r3.trans r2, Or.inr (h3.trans hh)⟩
  · rw [if_neg hne]
    exact ⟨s, rfl, rfl, rfl, Or.inl rfl⟩

theorem move_keeps_roomsValid (s : State) (p : Nat) (d : String) (hv : roomsValid s)
    (hp : roomIdOf s p ≠ none) :
    ∃ t, move p d s = Run.done t ∧ roomsValid t ∧ roomIdOf t p ≠ none := by
  obtain ⟨hw, hrooms⟩ := hv
  cases hr : s.roomAt (s.heap p).Room with
  | none => simp [roomIdOf, hr] at hp
  | some r =>
    have hnr : ∃ nr r', moveTarget p d s = some nr ∧ s.roomAt nr = some r' := by
      rcases moveTarget_cases s p d r hr with h | ⟨e, he, hpos, h⟩
      · exact ⟨_, r, h, hr⟩
      · have hmem : r ∈ worldRooms := hw ▸ roomAt_mem hr
        obtain ⟨j, hj, hlt⟩ := worldRooms_exits_resolve r hmem e he hpos
        have hg : getRoom s e = some j := by
          unfold getRoom
          rw [hw]; exact hj
        have hlt' : j < s.rooms.length := by rw [hw]; exact hlt
        refine ⟨some j, s.rooms[j], by rw [h, hg], ?_⟩
        simp [State.roomAt, hlt']
    obtain ⟨nr, r', hmt, hroom'⟩ := hnr
    obtain ⟨t, ht, tp, tr, th⟩ := move_completes s p d r r' nr hrooms hr hmt hroom'
    have hvalid : ∀ q, roomIdOf s q ≠ none → roomIdOf t q ≠ none := by
      intro q hq
      rcases th with th | th
      · rw [roomIdOf_congr q tr (by rw [th])]; exact hq
      · by_cases e : q = p
        · subst e
          have : t.roomAt (t.heap q).Room = some r' := by
            rw [roomAt_congr tr, th]
            simpa [State.setRoom] using hroom'
          simp [roomIdOf, this]
        · rw [roomIdOf_congr q tr (by rw [th]; simp [State.setRoom, e])]; exact hq
    exact ⟨t, ht, ⟨tr.trans hw, fun q hq => hvalid q (hrooms q (tp ▸ hq))⟩, hvalid p hp⟩

theorem quit_state (p : Nat) (s : State) :
    (quit p s).heap = s.heap ∧ (quit p s).rooms = s.rooms ∧
      (quit p s).players = s.players.filter (fun q => (s.heap q).Id ≠ (s.heap p).Id) := by
  simp [quit, broadcast_eq]

theorem chat_state (p : Nat) (m : String) (s : State) :
    (chat p m s).heap = s.heap ∧ (chat p m s).rooms = s.rooms ∧
      (chat p m s).players = s.players := by
  simp [chat, broadcast_eq, sendMessage, connWrite]

theorem accept_keeps_roomsValid (s : State) (hv : roomsValid s) :
    ∃ t, accept s = Run.done t ∧ roomsValid t ∧ t.players = s.players ++ [s.next] ∧
      (t.heap s.next).Room = some 0 := by
  obtain ⟨hw, hrooms⟩ := hv
  cases hrs : s.rooms with
  | nil => rw [hrs] at hw; exact absurd hw (by decide)
  | cons a rest =>
    have ha : accept s = Run.done { s with
        heap := fun x => if x = s.next
          then ({ Id := (s.players.length : Int), Name := "", Room := some 0 } : Player)
          else s.heap x
        next := s.next + 1
        players := s.players ++ [s.next] } := by
      simp only [accept, hrs]
    refine ⟨_, ha, ⟨hw, ?_⟩, rfl, by simp⟩
    intro q hq
    have hq2 : q ∈ s.players ++ [s.next] := hq
    by_cases e : q = s.next
    · have h0 : s.rooms[0]? = some a := by rw [hrs]; simp
      simp [roomIdOf, State.roomAt, e, h0]
    · have hq' : q ∈ s.players := by
        rcases List.mem_append.mp hq2 with h | h
        · exact h
        · exact absurd (List.mem_singleton.mp h) e
      have := hrooms q hq'
      simpa [roomIdOf, State.roomAt, e] using this

theorem handleInput_keeps_roomsValid (s : State) (p : Nat) (input : String)
    (hv : roomsValid s) (hp : roomIdOf s p ≠ none) (hf : Fields input ≠ []) :
    ∃ t, handleInput p input s = Run.done t ∧ roomsValid t ∧ roomIdOf t p ≠ none := by
  have frame : ∀ t : State, t.heap = s.heap → t.rooms = s.rooms →
      (∀ q ∈ t.players, q ∈ s.players) → roomsValid t ∧ roomIdOf t p ≠ none := by
    intro t th tr tp
    refine ⟨⟨tr.trans hv.1, fun q hq => ?_⟩, ?_⟩
    · rw [roomIdOf_congr q tr (by rw [th])]
      exact hv.2 q (tp q hq)
    · rw [roomIdOf_congr p tr (by rw [th])]
      exact hp
  unfold handleInput
  cases hfi : Fields input with
  | nil => exact absurd hfi hf
  | cons command rest =>
    simp only []
    by_cases h1 : command = "quit"
    · rw [if_pos h1]
      obtain ⟨qh, qr, qp⟩ := quit_state p s
      exact ⟨_, rfl, frame _ qh qr (fun q hq => by
        rw [qp] at hq
        exact List.mem_of_mem_filter hq)⟩
    · rw [if_neg h1]
      by_cases h2 : command = "chat"
      · rw [if_pos h2]
        obtain ⟨ch, cr, cp⟩ := chat_state p (TrimPrefix input (command ++ " ")) s
        exact ⟨_, rfl, frame _ ch cr (fun q hq => cp ▸ hq)⟩
      · rw [if_neg h2]
        by_cases h3 : command = "look"
        · rw [if_pos h3]
          obtain ⟨m, hm⟩ := look_completes s p (TrimPrefix input (command ++ " ")) hv.2 hp
          exact ⟨_, hm, frame _ rfl rfl (fun q hq => hq)⟩
        · rw [if_neg h3]
          by_cases h4 : command = "north" ∨ command = "east" ∨ command = "south" ∨
              command = "west"
          · rw [if_pos h4]
            exact move_keeps_roomsValid s p command hv hp
          · rw [if_neg h4]
            exact ⟨_, rfl, frame _ rfl rfl (fun q hq => hq)⟩

/-- C18: with the room table of `buildTheWorld`, the property that every registered player has
one of the world's rooms as current room (`roomsValid`) holds before any connection, is kept by
the registration of a new player, who is placed in the first room, and is kept by `handleInput`
for every player that has a room (which every registered player has) and every input line with
at least one token; in all these steps the program completes without a nil dereference. -/
theorem rooms_valid_invariant :
    roomsValid initial ∧
    (∀ s, roomsValid s →
      ∃ t, accept s = Run.done t ∧ roomsValid t ∧ t.players = s.players ++ [s.next] ∧
        (t.heap s.next).Room = some 0) ∧
    (∀ s p, roomsValid s → p ∈ s.players → roomIdOf s p ≠ none) ∧
    (∀ s p input, roomsValid s → roomIdOf s p ≠ none → Fields input ≠ [] →
      ∃ t, handleInput p input s = Run.done t ∧ roomsValid t ∧ roomIdOf t p ≠ none) := by
  refine ⟨by decide, accept_keeps_roomsValid, fun s p hv hp => hv.2 p hp,
    handleInput_keeps_roomsValid⟩

theorem rooms_valid_invariant_witness :
    roomsValid duoState ∧
    ∃ t, handleInput 0 "west" duoState = Run.done t ∧ roomsValid t ∧ roomIdOf t 0 ≠ none :=
  have hv : roomsValid duoState := by decide
  ⟨hv, rooms_valid_invariant.2.2.2 duoState 0 "west" hv
    (rooms_valid_invariant.2.2.1 duoState 0 hv (by decide)) (by decide)⟩

/-! ## C17: `chat` calls that run at the same time -/

theorem looping_runs_broadcastLoop (p : Nat) (text : String) (l : List Nat) (s : State) :
    runSchedule (List.replicate (l.length + 1) 0) [ChatTask.looping p text l] s =
      ([ChatTask.finished], broadcastLoop p text l s) := by
  induction l generalizing s with
  | nil => simp [runSchedule, stepAt, ChatTask.step, broadcastLoop, List.replicate]
  | cons r rest ih =>
    rw [List.length_cons, List.replicate_succ]
    unfold runSchedule broadcastLoop
    by_cases h : (s.heap r).Id = (s.heap p).Id
    · have hs : stepAt 0 [ChatTask.looping p text (r :: rest)] s =
          ([ChatTask.looping p text rest], s) := by
        simp [stepAt, ChatTask.step, h]
      rw [hs, if_pos h]
      exact ih s
    · have hs : stepAt 0 [ChatTask.looping p text (r :: rest)] s =
          ([ChatTask.looping p text rest], sendMessage r text s) := by
        simp [stepAt, ChatTask.step, h]
      rw [hs, if_neg h]
      exact ih (sendMessage r text s)

theorem chatTask_runs_chat (p : Nat) (message : String) (s : State) :
    runSchedule (List.replicate (s.players.length + 3) 0) [ChatTask.start p message] s =
      ([ChatTask.finished], chat p message s) := by
  have h1 : stepAt 0 [ChatTask.start p message] s =
      ([ChatTask.echoed p message], sendMessage p ("You: " ++ message) s) := by
    simp [stepAt, ChatTask.step]
  have h2 : stepAt 0 [ChatTask.echoed p message] (sendMessage p ("You: " ++ message) s) =
      ([ChatTask.looping p ((s.heap p).Name ++ ": " ++ message) s.players],
        sendMessage p ("You: " ++ message) s) := by
    simp [stepAt, ChatTask.step, sendMessage, connWrite]
  rw [List.replicate_succ, List.replicate_succ]
  unfold runSchedule
  rw [h1]
  unfold runSchedule
  rw [h2, looping_runs_broadcastLoop]
  rfl

theorem step_only_echoes (c : Int) (E : List Event) (task : ChatTask) (s : State)
    (hreg : ∀ r ∈ s.players, (s.heap r).Id = c)
    (hp : ∀ p, task.player = some p → (s.heap p).Id = c)
    (hpend : ∀ r ∈ task.pending, (s.heap r).Id = c)
    (hecho : ∀ e ∈ task.echo, e ∈ E) :
    (task.step s).2.players = s.players ∧ (task.step s).2.heap = s.heap ∧
    (∃ tr, (task.step s).2.out = s.out ++ tr ∧ ∀ e ∈ tr, e ∈ E) ∧
    (∀ p, (task.step s).1.player = some p → (s.heap p).Id = c) ∧
    (∀ r ∈ (task.step s).1.pending, (s.heap r).Id = c) ∧
    (∀ e ∈ (task.step s).1.echo, e ∈ E) := by
  cases task with
  | start p message =>
    refine ⟨rfl, rfl, ⟨[Event.write p (frame ("You: " ++ message))], rfl, ?_⟩, ?_, ?_, ?_⟩
    · intro e he
      exact hecho e (by simpa [ChatTask.echo] using he)
    · intro q hq
      exact hp q (by simpa [ChatTask.step, ChatTask.player] using hq)
    · intro r hr
      simp [ChatTask.step, ChatTask.pending] at hr
    · intro e he
      simp [ChatTask.step, ChatTask.echo] at he
  | echoed p message =>
    refine ⟨rfl, rfl, ⟨[], by simp [ChatTask.step], by simp⟩, ?_, ?_, ?_⟩
    · intro q hq
      exact hp q (by simpa [ChatTask.step, ChatTask.player] using hq)
    · intro r hr
      exact hreg r (by simpa [ChatTask.step, ChatTask.pending] using hr)
    · intro e he
      simp [ChatTask.step, ChatTask.echo] at he
  | looping p text rest =>
    cases rest with
    | nil =>
      refine ⟨rfl, rfl, ⟨[], by simp [ChatTask.step], by simp⟩, ?_, ?_, ?_⟩
      · intro q hq
        simp [ChatTask.step, ChatTask.player] at hq
      · intro r hr
        simp [ChatTask.step, ChatTask.pending] at hr
      · intro e he
        simp [ChatTask.step, ChatTask.echo] at he
    | cons r rest =>
      have hr : (s.heap r).Id = (s.heap p).Id := by
        rw [hpend r (by simp [ChatTask.pending]), hp p (by simp [ChatTask.player])]
      have hs : (ChatTask.looping p text (r :: rest)).step s =
          (ChatTask.looping p text rest, s) := by
        simp [ChatTask.step, hr]
      rw [hs]
      refine ⟨rfl, rfl, ⟨[], by simp, by simp⟩, ?_, ?_, ?_⟩
      · intro q hq
        exact hp q (by simpa [ChatTask.player] using hq)
      · intro r' hr'
        exact hpend r' (by
          simp only [ChatTask.pending] at hr' ⊢
          exact List.mem_cons_of_mem _ hr')
      · intro e he
        simp [ChatTask.echo] at he
  | finished =>
    refine ⟨rfl, rfl, ⟨[], by simp [ChatTask.step], by simp⟩, ?_, ?_, ?_⟩
    · intro q hq
      simp [ChatTask.step, ChatTask.player] at hq
    · intro r hr
      simp [ChatTask.step, ChatTask.pending] at hr
    · intro e he
      simp [ChatTask.step, ChatTask.echo] at he

theorem runSchedule_only_echoes (c : Int) (E : List Event) (sched : List Nat)
    (tasks : List ChatTask) (s : State)
    (hreg : ∀ r ∈ s.players, (s.heap r).Id = c)
    (htasks : ∀ task ∈ tasks, (∀ p, task.player = some p → (s.heap p).Id = c) ∧
      (∀ r ∈ task.pending, (s.heap r).Id = c) ∧ (∀ e ∈ task.echo, e ∈ E)) :
    ∃ tr, (runSchedule sched tasks s).2.out = s.out ++ tr ∧ ∀ e ∈ tr, e ∈ E := by
  induction sched generalizing tasks s with
  | nil => exact ⟨[], by simp [runSchedule], by simp⟩
  | cons i rest ih =>
    unfold runSchedule
    cases hi : tasks[i]? with
    | none =>
      have hs : stepAt i tasks s = (tasks, s) := by simp [stepAt, hi]
      rw [hs]
      exact ih tasks s hreg htasks
    | some task =>
      have hs : stepAt i tasks s = (tasks.set i (task.step s).1, (task.step s).2) := by
        simp [stepAt, hi]
      rw [hs]
      have hmem : task ∈ tasks := List.getElem?_mem hi
      obtain ⟨h1, h2, h3⟩ := htasks task hmem
      obtain ⟨sp, sh, ⟨tr1, ho1, he1⟩, n1, n2, n3⟩ :=
        step_only_echoes c E task s hreg h1 h2 h3
      have hreg' : ∀ r ∈ (task.step s).2.players, ((task.step s).2.heap r).Id = c := by
        intro r hr
        rw [sh]; exact hreg r (sp ▸ hr)
      have htasks' : ∀ t' ∈ tasks.set i (task.step s).1,
          (∀ p, t'.player = some p → (((task.step s).2).heap p).Id = c) ∧
          (∀ r ∈ t'.pending, (((task.step s).2).heap r).Id = c) ∧
          (∀ e ∈ t'.echo, e ∈ E) := by
        intro t' ht'
        rw [sh]
        rcases List.mem_or_eq_of_mem_set ht' with h | h
        · exact htasks t' h
        · rw [h]; exact ⟨n1, n2, n3⟩
      obtain ⟨tr2, ho2, he2⟩ := ih _ _ hreg' htasks'
      refine ⟨tr1 ++ tr2, by rw [ho2, ho1, List.append_assoc], ?_⟩
      intro e he
      rcases List.mem_append.mp he with h | h
      · exact he1 e h
      · exact he2 e h

theorem mem_sentTo (q : Nat) (data : String) (evs : List Event) :
    data ∈ sentTo q evs ↔ Event.write q data ∈ evs := by
  unfold sentTo
  rw [List.mem_filterMap]
  constructor
  · rintro ⟨e, he, h⟩
    cases e with
    | write r d =>
      by_cases hr : r = q
      · simp [hr] at h
        rw [hr, h] at he
        exact he
      · simp [hr] at h
    | close o => simp at h
  · intro h
    exact ⟨Event.write q data, h, by simp⟩

/-- C17 (code fault): `sharedIdState` is the state reached by `reuseTrace` (two registered
players, at addresses 1 and 2, both with Id 1) after both gave their names.  When each of the
two issues one `chat`, then under every schedule of their steps the only writes are the two
echoes: a session never receives anything but its own echo, in particular never the message of
the other session, so each receives 0 peer messages, not 1.  Both serial schedules run the two
calls to the end and yield exactly the two echoes. -/
theorem simultaneous_chats_lose_peer_messages :
    runOps reuseTrace initial =
      some (accept (quit 0 (accept (accept initial).state).state)).state ∧
    sharedIdState.players = [1, 2] ∧ registryIds sharedIdState = [1, 1] ∧
    (∀ sched : List Nat,
      (∀ data ∈ sentTo 1 (emitted sharedIdState
          (runSchedule sched sharedIdChats sharedIdState).2), data = frame ("You: " ++ "hi")) ∧
      (∀ data ∈ sentTo 2 (emitted sharedIdState
          (runSchedule sched sharedIdChats sharedIdState).2), data = frame ("You: " ++ "yo")) ∧
      frame ("carol" ++ ": " ++ "yo") ∉ sentTo 1 (emitted sharedIdState
          (runSchedule sched sharedIdChats sharedIdState).2) ∧
      frame ("bob" ++ ": " ++ "hi") ∉ sentTo 2 (emitted sharedIdState
          (runSchedule sched sharedIdChats sharedIdState).2)) ∧
    (runSchedule [0, 0, 0, 0, 0, 1, 1, 1, 1, 1] sharedIdChats sharedIdState).1 =
      [ChatTask.finished, ChatTask.finished] ∧
    emitted sharedIdState
        (runSchedule [0, 0, 0, 0, 0, 1, 1, 1, 1, 1] sharedIdChats sharedIdState).2 =
      [Event.write 1 (frame ("You: " ++ "hi")), Event.write 2 (frame ("You: " ++ "yo"))] ∧
    (runSchedule [1, 1, 1, 1, 1, 0, 0, 0, 0, 0] sharedIdChats sharedIdState).1 =
      [ChatTask.finished, ChatTask.finished] ∧
    emitted sharedIdState
        (runSchedule [1, 1, 1, 1, 1, 0, 0, 0, 0, 0] sharedIdChats sharedIdState).2 =
      [Event.write 2 (frame ("You: " ++ "yo")), Event.write 1 (frame ("You: " ++ "hi"))] ∧
    emitted sharedIdState (chat 2 "yo" (chat 1 "hi" sharedIdState)) =
      [Event.write 1 (frame ("You: " ++ "hi")), Event.write 2 (frame ("You: " ++ "yo"))] := by
  have hall : ∀ sched : List Nat, ∀ e ∈ emitted sharedIdState
      (runSchedule sched sharedIdChats sharedIdState).2,
      e ∈ [Event.write 1 (frame ("You: " ++ "hi")), Event.write 2 (frame ("You: " ++ "yo"))] := by
    intro sched
    obtain ⟨tr, ho, he⟩ := runSchedule_only_echoes 1
      [Event.write 1 (frame ("You: " ++ "hi")), Event.write 2 (frame ("You: " ++ "yo"))]
      sched sharedIdChats sharedIdState (by decide) (by
        intro task ht
        simp only [sharedIdChats, List.mem_cons, List.mem_singleton, List.not_mem_nil,
          or_false] at ht
        rcases ht with h | h
        · subst h
          refine ⟨fun p hp => ?_, fun r hr => ?_, fun e he => ?_⟩
          · have : p = 1 := by simpa [ChatTask.player] using hp.symm
            subst this; decide
          · simp [ChatTask.pending] at hr
          · simp only [ChatTask.echo, List.mem_singleton] at he
            rw [he]; simp
        · subst h
          refine ⟨fun p hp => ?_, fun r hr => ?_, fun e he => ?_⟩
          · have : p = 2 := by simpa [ChatTask.player] using hp.symm
            subst this; decide
          · simp [ChatTask.pending] at hr
          · simp only [ChatTask.echo, List.mem_singleton] at he
            rw [he]; simp)
    rw [emitted_of_out_eq ho]
    exact he
  have h1 : ∀ sched : List Nat, ∀ data ∈ sentTo 1 (emitted sharedIdState
      (runSchedule sched sharedIdChats sharedIdState).2), data = frame ("You: " ++ "hi") := by
    intro sched data hd
    have := hall sched _ ((mem_sentTo 1 data _).mp hd)
    simp only [List.mem_cons, List.mem_singleton, List.not_mem_nil, or_false] at this
    rcases this with h | h
    · exact (Event.write.inj h).2
    · exact absurd (Event.write.inj h).1 (by decide)
  have h2 : ∀ sched : List Nat, ∀ data ∈ sentTo 2 (emitted sharedIdState
      (runSchedule sched sharedIdChats sharedIdState).2), data = frame ("You: " ++ "yo") := by
    intro sched data hd
    have := hall sched _ ((mem_sentTo 2 data _).mp hd)
    simp only [List.mem_cons, List.mem_singleton, List.not_mem_nil, or_false] at this
    rcases this with h | h
    · exact absurd (Event.write.inj h).1 (by decide)
    · exact (Event.write.inj h).2
  refine ⟨rfl, by decide, by decide, ?_, by decide, by decide, by decide, by decide, by decide⟩
  intro sched
  refine ⟨h1 sched, h2 sched, ?_, ?_⟩
  · intro hmem
    exact absurd (h1 sched _ hmem) (by decide)
  · intro hmem
    exact absurd (h2 sched _ hmem) (by decide)

end GoMud
